import Mathlib

/-!
# Verification of the langchain-codemods edit engine

This development shallowly embeds the structural-query / edit-planning /
edit-commit engine shared by the codemod scripts in this repository
(`src/codemods/*/scripts/codemod.ts` and the script sources embedded in the
READMEs) and proves properties of the embedded functions.

Modelling conventions:
* A syntax-tree node (ast-grep `SgNode`) is `Node`: a kind tag, a half-open
  byte `Span` into the file's buffer, the node's verbatim source text, the
  tree-sitter named/anonymous flag, and the labelled children (the label is
  the tree-sitter field name, `none` for unlabelled children).  `node.text()`
  is the stored text; for a root node the stored text is the whole buffer.
* `node.findAll(rule)` / `node.find(rule)` are modelled as a pre-order
  depth-first traversal (`Node.findAllP` / `Node.findP`) with the specific
  rule translated to a Boolean predicate.  ast-grep relational `has` rules
  default to `stopBy: neighbor`, i.e. they inspect direct children only;
  rules written with `has.field` inspect the child occupying that field.
* `node.id()` equality is modelled by `Node.idKey`: the (span, kind) pair,
  which distinguishes any two distinct nodes of one parse.
* An `Edit` is the object literal the scripts build: start offset, end
  offset, inserted text.  `commitEdits` sorts the edits by start offset and
  splices them into the buffer in one pass, exactly as the committer
  described in the engine contract (and as `SgNode.commitEdits`) does.
* JavaScript `Number` arithmetic on usage counts is modelled with `Int`
  (subtraction may go negative); byte offsets are `Nat`.
-/

namespace Codemod

/-- Half-open byte range `[start, stop)` into one source buffer. -/
structure Span where
  start : Nat
  stop : Nat
deriving Repr, DecidableEq

mutual
/-- Syntax-tree node: kind, span, verbatim text, tree-sitter named flag,
labelled children.  Mirrors the `SgNode` surface the codemods consume. -/
inductive Node where
  | mk (kind : String) (span : Span) (text : List Char) (named : Bool)
       (children : Children) : Node

/-- Children list of a node; the `Option String` is the tree-sitter field
label of the child (`none` for unlabelled children such as punctuation). -/
inductive Children where
  | nil : Children
  | cons (label : Option String) (child : Node) (rest : Children) : Children
end

/-- Convert a plain list of labelled children to `Children`. -/
def Children.ofList : List (Option String × Node) → Children
  | [] => .nil
  | (l, n) :: rest => .cons l n (Children.ofList rest)

/-- Convert `Children` back to a plain list of labelled children. -/
def Children.toList : Children → List (Option String × Node)
  | .nil => []
  | .cons l n rest => (l, n) :: Children.toList rest

/-- The node's kind tag (`SgNode.kind()`). -/
def Node.kind : Node → String
  | .mk k _ _ _ _ => k

/-- The node's byte span (`SgNode.range()`, keeping only the byte indices). -/
def Node.span : Node → Span
  | .mk _ sp _ _ _ => sp

/-- The node's verbatim source text (`SgNode.text()`). -/
def Node.text : Node → List Char
  | .mk _ _ t _ _ => t

/-- Whether the node is a tree-sitter named node (`SgNode.isNamed()`). -/
def Node.named : Node → Bool
  | .mk _ _ _ nm _ => nm

/-- The node's labelled children. -/
def Node.childPairs : Node → List (Option String × Node)
  | .mk _ _ _ _ cs => cs.toList

/-- The node's children in order (`SgNode.children()`); includes unnamed
punctuation children, as the codemods rely on. -/
def Node.childNodes (n : Node) : List Node :=
  n.childPairs.map Prod.snd

/-- Source `SgNode.field(name)`: the first child occupying the given field. -/
def Node.field (n : Node) (f : String) : Option Node :=
  (n.childPairs.find? (fun lc => lc.1 == some f)).map Prod.snd

/-- Source `SgNode.fieldChildren(name)`: all children occupying the given field. -/
def Node.fieldChildren (n : Node) (f : String) : List Node :=
  (n.childPairs.filter (fun lc => lc.1 == some f)).map Prod.snd

/-- Node-identity key modelling `SgNode.id()` comparisons: two distinct nodes
of one parse differ in span or kind. -/
def Node.idKey (n : Node) : Nat × Nat × String :=
  (n.span.start, n.span.stop, n.kind)

mutual
/-- Source `SgNode.findAll(rule)` with the rule compiled to a predicate: pre-order
depth-first traversal collecting every node (the start node included)
satisfying the predicate. -/
def Node.findAllP (p : Node → Bool) (n : Node) : List Node :=
  match n with
  | .mk k sp t nm cs =>
    (if p (.mk k sp t nm cs) then [Node.mk k sp t nm cs] else [])
      ++ Children.findAllP p cs

/-- Traversal of `Node.findAllP` over a children list. -/
def Children.findAllP (p : Node → Bool) : Children → List Node
  | .nil => []
  | .cons _ c rest => Node.findAllP p c ++ Children.findAllP p rest
end

/-- Source `SgNode.find(rule)`: first match of the pre-order traversal. -/
def Node.findP (p : Node → Bool) (n : Node) : Option Node :=
  (n.findAllP p).head?

/-- A planned textual edit, as the scripts build it: replace the bytes in
`[startPos, endPos)` by `insertedText`. -/
structure Edit where
  startPos : Nat
  endPos : Nat
  insertedText : List Char
deriving Repr, DecidableEq

/-- Source `SgNode.replace(text)`: an edit covering exactly the node's span. -/
def replaceNode (n : Node) (t : List Char) : Edit :=
  { startPos := n.span.start, endPos := n.span.stop, insertedText := t }

/-- Insert an edit into a start-sorted edit list keeping it sorted. -/
def insertEdit (e : Edit) : List Edit → List Edit
  | [] => [e]
  | f :: rest =>
    if e.startPos ≤ f.startPos then e :: f :: rest else f :: insertEdit e rest

/-- Sort edits by ascending start offset (stable insertion sort). -/
def sortEdits : List Edit → List Edit
  | [] => []
  | e :: rest => insertEdit e (sortEdits rest)

/-- One splice pass over the buffer: copy from the cursor up to each edit's
start, emit its replacement, move the cursor to its end; copy the tail. -/
def spliceEdits (src : List Char) : Nat → List Edit → List Char
  | cursor, [] => src.drop cursor
  | cursor, e :: es =>
    (src.drop cursor).take (e.startPos - cursor) ++ e.insertedText
      ++ spliceEdits src e.endPos es

/-- The committer: sort the edits by start offset and splice them into the
buffer in a single linear pass (`SgNode.commitEdits`). -/
def commitEdits (src : List Char) (edits : List Edit) : List Char :=
  spliceEdits src 0 (sortEdits edits)

/-- Character list of a string literal. -/
def chars (s : String) : List Char :=
  s.data

/-- JavaScript `String.includes`: substring containment test. -/
def hasSubstring (hay needle : List Char) : Bool :=
  if needle.isPrefixOf hay then true
  else
    match hay with
    | [] => false
    | _ :: t => hasSubstring t needle

/-- Whitespace test used to model JavaScript `\s` / `String.trim`
(space, tab, newline, carriage return, form feed, vertical tab). -/
def isWsChar (c : Char) : Bool :=
  c == ' ' || c == '\t' || c == '\n' || c == '\r' || c == '\x0b' || c == '\x0c'

/-- Strip leading whitespace. -/
def trimLeftWs (l : List Char) : List Char :=
  l.dropWhile isWsChar

/-- JavaScript `String.trim`: strip leading and trailing whitespace. -/
def trimBoth (l : List Char) : List Char :=
  ((l.dropWhile isWsChar).reverse.dropWhile isWsChar).reverse

/-- Number of leading `' '` characters of a list. -/
def leadingSpaces : List Char → Nat
  | [] => 0
  | c :: rest => if c == ' ' then leadingSpaces rest + 1 else 0

/-- The loop `while (pos < len && text[pos] === " ") pos++`: first position at
or after `pos` holding a non-space character (or the end of the buffer). -/
def skipSpacesRight (t : List Char) (pos : Nat) : Nat :=
  pos + leadingSpaces (t.drop pos)

/-- The loop `lookBehind = pos - 1; while (lookBehind >= 0 &&
text[lookBehind] === " ") lookBehind--`: index of the last non-space
character strictly before `pos`, `none` when only spaces precede `pos`. -/
def scanLeftNonSpace (t : List Char) : Nat → Option Nat
  | 0 => none
  | k + 1 => if t.getD k ' ' == ' ' then scanLeftNonSpace t k else some k

/-- Trailing-newline consumption of `createImportRemovalEdit`
(unwrap-tool-node codemod, whole-statement branch): after the statement end,
consume one `'\n'` if present, and a second one if it immediately follows. -/
def unwrapStmtEnd (fullText : List Char) (endPos : Nat) : Nat :=
  if endPos < fullText.length && fullText.getD endPos ' ' == '\n' then
    if endPos + 1 < fullText.length && fullText.getD (endPos + 1) ' ' == '\n' then
      endPos + 2
    else endPos + 1
  else endPos

/-- Trailing-newline consumption of `buildImportEdit`
(system-message-to-prompt codemod, whole-statement branch): after the
statement end, consume one `'\n'` if present. -/
def smtpStmtEnd (fullText : List Char) (endPos : Nat) : Nat :=
  if endPos < fullText.length && fullText.getD endPos ' ' == '\n' then
    endPos + 1
  else endPos

/-! ## unwrap-tool-node-in-agent codemod
(`src/codemods/unwrap-tool-node-in-agent/scripts/codemod.ts`) -/

/-- Source `isToolNodeCall`: the call's function is the identifier `ToolNode`, or an
attribute whose final attribute name is `ToolNode`. -/
def isToolNodeCall (callNode : Node) : Bool :=
  match callNode.field "function" with
  | none => false
  | some func =>
    (func.kind == "identifier" && func.text == chars "ToolNode")
      || (func.kind == "attribute" &&
            (match func.field "attribute" with
             | some attrName => attrName.text == chars "ToolNode"
             | none => false))

/-- Source `isAgentCreationCall`: the call's function is `create_agent` or
`create_react_agent`, bare or attribute-qualified. -/
def isAgentCreationCall (callNode : Node) : Bool :=
  match callNode.field "function" with
  | none => false
  | some func =>
    (func.kind == "identifier" &&
        (func.text == chars "create_agent" || func.text == chars "create_react_agent"))
      || (func.kind == "attribute" &&
            (match func.field "attribute" with
             | some attrName =>
               attrName.text == chars "create_agent"
                 || attrName.text == chars "create_react_agent"
             | none => false))

/-- Children of an argument list that are actual arguments: everything except
the `(`, `)` and `,` punctuation tokens. -/
def actualArgs (argList : Node) : List Node :=
  argList.childNodes.filter
    (fun c => c.kind != "(" && c.kind != ")" && c.kind != ",")

/-- Source `hasSingleArgument`: the `ToolNode` call has exactly one argument and it
is not a keyword argument. -/
def hasSingleArgument (toolNodeCall : Node) : Bool :=
  match toolNodeCall.field "arguments" with
  | none => false
  | some argList =>
    match actualArgs argList with
    | [singleArg] => !(singleArg.kind == "keyword_argument")
    | _ => false

/-- Source `getSingleArgument`: the unique argument of the `ToolNode` call. -/
def getSingleArgument (toolNodeCall : Node) : Option Node :=
  match toolNodeCall.field "arguments" with
  | none => none
  | some argList =>
    match actualArgs argList with
    | [singleArg] => some singleArg
    | _ => none

/-- Source `findToolsArgWithToolNode`: within the agent call's argument list, the
first `tools=` keyword argument whose value is a `ToolNode(...)` call with a
single positional argument; returns the keyword argument and that call. -/
def findToolsArgWithToolNode (agentCall : Node) : Option (Node × Node) :=
  match agentCall.field "arguments" with
  | none => none
  | some argList =>
    let toolsKwArgs := argList.findAllP (fun n =>
      n.kind == "keyword_argument" &&
        (match n.field "name" with
         | some f => f.kind == "identifier" && f.text == chars "tools"
         | none => false))
    toolsKwArgs.findSome? (fun kwArg =>
      match kwArg.field "value" with
      | none => none
      | some value =>
        if value.kind == "call" then
          if isToolNodeCall value && hasSingleArgument value then
            some (kwArg, value)
          else none
        else none)

/-- Source `countToolNodeUsages`: all call expressions whose function is the bare
identifier `ToolNode`.  (Note: this is what the source counts — it does not
count bare references or attribute-qualified uses of `ToolNode`.) -/
def countToolNodeUsages (rootNode : Node) : Nat :=
  (rootNode.findAllP (fun n =>
    n.kind == "call" &&
      (match n.field "function" with
       | some f => f.kind == "identifier" && f.text == chars "ToolNode"
       | none => false))).length

/-- The children of an import statement that are imported names: the
`dotted_name` children appearing after the `import` keyword token. -/
def importedNameChildren (stmt : Node) : List Node :=
  go false stmt.childNodes
where
  /-- Walk the children carrying the `foundImportKeyword` flag. -/
  go : Bool → List Node → List Node
  | _, [] => []
  | found, c :: rest =>
    if c.kind == "import" then go true rest
    else if found && c.kind == "dotted_name" then c :: go found rest
    else go found rest

/-- The `moduleNameNode` lookup of `createImportRemovalEdit`: the first
`dotted_name` descendant of the statement that occupies the `module_name`
field of an `import_from_statement`. -/
def findModuleNameNode (stmt : Node) : Option Node :=
  stmt.findP (fun d =>
    d.kind == "dotted_name" &&
      !(stmt.findAllP (fun p =>
          p.kind == "import_from_statement" &&
            (match p.field "module_name" with
             | some m => m.idKey == d.idKey
             | none => false))).isEmpty)

/-- The backward comma probe of `createImportRemovalEdit`'s multi-name
branch: scan left over spaces from just before the name; report the index of
a comma found there. -/
def backCommaScan (fullText : List Char) (startPos : Nat) : Option Nat :=
  match scanLeftNonSpace fullText startPos with
  | some k => if fullText.getD k ' ' == ',' then some k else none
  | none => none

/-- The forward branch of `createImportRemovalEdit`'s multi-name removal:
skip spaces after the name; when a comma follows, extend the span through it
and its trailing spaces. -/
def forwardCommaScan (fullText : List Char) (startPos endPos : Nat) : Edit :=
  let lookAhead := skipSpacesRight fullText endPos
  if lookAhead < fullText.length && fullText.getD lookAhead ' ' == ',' then
    { startPos := startPos,
      endPos := skipSpacesRight fullText (lookAhead + 1),
      insertedText := [] }
  else
    { startPos := startPos, endPos := endPos, insertedText := [] }

/-- Comma-and-space scan of `createImportRemovalEdit`'s multi-name branch:
starting from the name's span, extend backwards over spaces to a preceding
comma if one is there; otherwise extend forwards over spaces through a
following comma and its trailing spaces. -/
def removeNameEdit (fullText : List Char) (nameSpan : Span) : Edit :=
  match backCommaScan fullText nameSpan.start with
  | some k => { startPos := k, endPos := nameSpan.stop, insertedText := [] }
  | none => forwardCommaScan fullText nameSpan.start nameSpan.stop

/-- Source `createImportRemovalEdit`: when no `ToolNode` usages remain, find
the import statement binding `ToolNode` and plan its removal — the whole
statement (plus trailing newline handling per `unwrapStmtEnd`) when
`ToolNode` is the only imported name, otherwise just the name with comma and
space cleanup (`removeNameEdit`). -/
def createImportRemovalEdit (rootNode : Node) (remainingToolNodeUsages : Int) :
    Option Edit :=
  if remainingToolNodeUsages > 0 then none
  else
    let fullText := rootNode.text
    let imports := rootNode.findAllP (fun n => n.kind == "import_from_statement")
    imports.findSome? (fun importStmt =>
      if !hasSubstring importStmt.text (chars "ToolNode") then none
      else
        let importedNames := importStmt.findAllP (fun d =>
          d.kind == "dotted_name" &&
            d.childNodes.any (fun c =>
              c.kind == "identifier" && c.text == chars "ToolNode"))
        importedNames.findSome? (fun nameNode =>
          let skipModule :=
            match findModuleNameNode importStmt with
            | some m => m.idKey == nameNode.idKey
            | none => false
          if skipModule then none
          else if (importedNameChildren importStmt).length == 1 then
            some { startPos := importStmt.span.start,
                   endPos := unwrapStmtEnd fullText importStmt.span.stop,
                   insertedText := [] }
          else
            match nameNode.findP (fun c =>
                c.kind == "identifier" && c.text == chars "ToolNode") with
            | none => none
            | some _ => some (removeNameEdit fullText nameNode.span)))

/-- The rewrite edits of the unwrap-tool-node `transform` loop: one
`tools=ToolNode(ARG) → tools=ARG` replacement per qualifying agent call. -/
def unwrapRewriteEdits (rootNode : Node) : List Edit :=
  (rootNode.findAllP (fun n => n.kind == "call")).filterMap (fun call =>
    if !isAgentCreationCall call then none
    else
      match findToolsArgWithToolNode call with
      | none => none
      | some (_, toolNodeCall) =>
        match getSingleArgument toolNodeCall with
        | none => none
        | some innerArg => some (replaceNode toolNodeCall innerArg.text))

/-- The unwrap-tool-node `transform`: collect the rewrite edits, bail out
returning the unchanged sentinel when there are none, compute the remaining
usage count, append the import-removal edit when one is planned, commit. -/
def transformUnwrap (rootNode : Node) : Option (List Char) :=
  let edits := unwrapRewriteEdits rootNode
  if edits.isEmpty then none
  else
    let remainingUsages : Int :=
      (countToolNodeUsages rootNode : Int) - (edits.length : Int)
    let edits2 :=
      match createImportRemovalEdit rootNode remainingUsages with
      | some importEdit => edits ++ [importEdit]
      | none => edits
    some (commitEdits rootNode.text edits2)

/-- Count of identifier occurrences of `name` outside import statements —
the `N` of the conservative-import-pruning property (a claim-side measure,
not a function of the source). -/
def occurrencesOutsideImports (name : List Char) (n : Node) : Nat :=
  occNode n
where
  /-- Count over one node. -/
  occNode : Node → Nat
  | .mk k _ t _ cs =>
    if k == "import_from_statement" || k == "import_statement" then 0
    else
      (if k == "identifier" && t == name then 1 else 0) + occChildren cs
  /-- Count over a children list. -/
  occChildren : Children → Nat
  | .nil => 0
  | .cons _ c rest => occNode c + occChildren rest

/-! ## system-message-to-prompt codemod
(`src/codemods/system-message-to-prompt/scripts/codemod.ts`), the
import-removal part -/

/-- First-occurrence replace of the regex `SystemMessage,\s*` by nothing
(`importText.replace(/SystemMessage,\s*/, "")`); `none` when no match. -/
def dropSystemMessageComma : List Char → Option (List Char)
  | [] => none
  | c :: rest =>
    if (chars "SystemMessage,").isPrefixOf (c :: rest) then
      some (((c :: rest).drop (chars "SystemMessage,").length).dropWhile isWsChar)
    else
      match dropSystemMessageComma rest with
      | none => none
      | some r => some (c :: r)

/-- First-occurrence replace of the regex `,\s*SystemMessage` by nothing. -/
def dropCommaSystemMessage : List Char → Option (List Char)
  | [] => none
  | c :: rest =>
    if c == ',' && (chars "SystemMessage").isPrefixOf (rest.dropWhile isWsChar) then
      some ((rest.dropWhile isWsChar).drop (chars "SystemMessage").length)
    else
      match dropCommaSystemMessage rest with
      | none => none
      | some r => some (c :: r)

/-- First-occurrence replace of the literal `SystemMessage` by nothing. -/
def dropSystemMessage : List Char → Option (List Char)
  | [] => none
  | c :: rest =>
    if (chars "SystemMessage").isPrefixOf (c :: rest) then
      some ((c :: rest).drop (chars "SystemMessage").length)
    else
      match dropSystemMessage rest with
      | none => none
      | some r => some (c :: r)

/-- Source `buildImportEdit`: with no other imported names, remove the whole
statement plus at most one trailing newline (`smtpStmtEnd`); otherwise
rewrite the statement's text with `SystemMessage` (and one adjacent comma)
removed, trying the three replacement patterns in order. -/
def buildImportEdit (rootNode importStmt : Node) (otherImportsExist : Bool) :
    Option Edit :=
  if !otherImportsExist then
    some { startPos := importStmt.span.start,
           endPos := smtpStmtEnd rootNode.text importStmt.span.stop,
           insertedText := [] }
  else
    let importText := importStmt.text
    let newText :=
      match dropSystemMessageComma importText with
      | some r => some r
      | none =>
        match dropCommaSystemMessage importText with
        | some r => some r
        | none => dropSystemMessage importText
    match newText with
    | none => none
    | some r =>
      some { startPos := importStmt.span.start,
             endPos := importStmt.span.stop,
             insertedText := r }

/-! ## aimessage-example-to-kwargs codemod
(script source embedded in `src/codemods/aimessage-example-to-kwargs/README.md`) -/

/-- Source `getKeywordArgumentValue`: the child following the `=` token of a
keyword-argument node. -/
def getKeywordArgumentValue (keywordArg : Node) : Option Node :=
  go false keywordArg.childNodes
where
  /-- Walk the children carrying the `foundEquals` flag. -/
  go : Bool → List Node → Option Node
  | _, [] => none
  | true, c :: _ => some c
  | false, c :: rest =>
    if c.text == chars "=" then go true rest else go false rest

/-- The `example=` keyword argument of an argument list: first
`keyword_argument` descendant having a direct `identifier` child whose text
is `example`. -/
def findExampleArg (argList : Node) : Option Node :=
  argList.findP (fun n =>
    n.kind == "keyword_argument" &&
      n.childNodes.any (fun c =>
        c.kind == "identifier" && c.text == chars "example"))

/-- The `additional_kwargs=` keyword argument of an argument list. -/
def findAdditionalKwargsArg (argList : Node) : Option Node :=
  argList.findP (fun n =>
    n.kind == "keyword_argument" &&
      n.childNodes.any (fun c =>
        c.kind == "identifier" && c.text == chars "additional_kwargs"))

/-- Existing `"example"` key detection inside a dictionary literal: first
`pair` descendant having a direct `string` child with a direct
`string_content` child whose text is `example`. -/
def findExistingExampleKey (dict : Node) : Option Node :=
  dict.findP (fun n =>
    n.kind == "pair" &&
      n.childNodes.any (fun c =>
        c.kind == "string" &&
          c.childNodes.any (fun g =>
            g.kind == "string_content" && g.text == chars "example")))

/-- The dictionary-merge text of the aimessage transform: strip the braces,
trim the inner content; an empty mapping becomes the single-entry literal,
otherwise the new entry is prepended before the trimmed original content. -/
def mergeDictText (dictText exampleValue : List Char) : List Char :=
  let dictContent := trimBoth (dictText.drop 1).dropLast
  if dictContent.isEmpty then
    chars "\x7b\"example\": " ++ exampleValue ++ chars "\x7d"
  else
    chars "\x7b\"example\": " ++ exampleValue ++ chars ", "
      ++ dictContent ++ chars "\x7d"

/-- The no-trailing-comma branch of `removeArgumentWithComma`: extend the
span backwards over a leading comma when one is the previous child. -/
def removeArgumentLeading (startPos endPos : Nat) (allChildren : List Node)
    (argIndex : Nat) : Edit :=
  match (if argIndex == 0 then none else allChildren[argIndex - 1]?) with
  | some prevChild =>
    if prevChild.text == chars "," then
      { startPos := prevChild.span.start, endPos := endPos, insertedText := [] }
    else
      { startPos := startPos, endPos := endPos, insertedText := [] }
  | none => { startPos := startPos, endPos := endPos, insertedText := [] }

/-- Source `removeArgumentWithComma`: remove one argument from an argument list,
including a trailing comma and the whitespace up to the next argument when a
trailing comma exists, else a leading comma (and the space between it and
the argument, which lies inside the resulting span). -/
def removeArgumentWithComma (arg argList : Node) : Edit :=
  let allChildren := argList.childNodes
  let argIndex := allChildren.findIdx (fun c => c.idKey == arg.idKey)
  let startPos := arg.span.start
  let endPos := arg.span.stop
  match allChildren[argIndex + 1]? with
  | some nextChild =>
    if nextChild.text == chars "," then
      match allChildren[argIndex + 2]? with
      | some afterComma =>
        { startPos := startPos, endPos := afterComma.span.start, insertedText := [] }
      | none =>
        { startPos := startPos, endPos := nextChild.span.stop, insertedText := [] }
    else
      removeArgumentLeading startPos endPos allChildren argIndex
  | none => removeArgumentLeading startPos endPos allChildren argIndex

/-- The `AIMessage(...)` calls the aimessage transform visits. -/
def aimCalls (rootNode : Node) : List Node :=
  rootNode.findAllP (fun n =>
    n.kind == "call" &&
      (match n.field "function" with
       | some f => f.kind == "identifier" && f.text == chars "AIMessage"
       | none => false))

/-- Edits the aimessage transform plans for one `AIMessage(...)` call
(the body of its `for (const call of calls)` loop). -/
def planAIMessageCall (call : Node) : List Edit :=
  match call.field "arguments" with
  | none => []
  | some argList =>
    match findExampleArg argList with
    | none => []
    | some exampleArg =>
      match exampleArg.findP (fun n =>
          n.kind == "identifier" && n.text == chars "example") with
      | none => []
      | some _ =>
        match getKeywordArgumentValue exampleArg with
        | none => []
        | some exampleValueNode =>
          let exampleValue := exampleValueNode.text
          match findAdditionalKwargsArg argList with
          | some additionalKwargsArg =>
            match getKeywordArgumentValue additionalKwargsArg with
            | none => []
            | some additionalKwargsValue =>
              if additionalKwargsValue.kind == "dictionary" then
                if (findExistingExampleKey additionalKwargsValue).isSome then []
                else
                  [replaceNode additionalKwargsValue
                     (mergeDictText additionalKwargsValue.text exampleValue),
                   removeArgumentWithComma exampleArg argList]
              else
                [replaceNode additionalKwargsValue
                   (chars "\x7b**" ++ additionalKwargsValue.text
                      ++ chars ", \"example\": " ++ exampleValue ++ chars "\x7d"),
                 removeArgumentWithComma exampleArg argList]
          | none =>
            [replaceNode exampleArg
               (chars "additional_kwargs=\x7b\"example\": "
                  ++ exampleValue ++ chars "\x7d")]

/-- The aimessage transform: plan per call, return the unchanged sentinel
when no edits, else commit. -/
def transformAIMessage (rootNode : Node) : Option (List Char) :=
  let edits := (aimCalls rootNode).flatMap planAIMessageCall
  if edits.isEmpty then none
  else some (commitEdits rootNode.text edits)

/-- Decidable form of the merge-decline situation at one `AIMessage` call:
whenever the call has an `example=` site, its `additional_kwargs=` value is
a dictionary literal that already contains an `"example"` key. -/
def aimDeclineCond (call : Node) : Bool :=
  match call.field "arguments" with
  | none => true
  | some argList =>
    match findExampleArg argList with
    | none => true
    | some exampleArg =>
      match exampleArg.findP (fun n =>
          n.kind == "identifier" && n.text == chars "example") with
      | none => true
      | some _ =>
        match getKeywordArgumentValue exampleArg with
        | none => true
        | some _ =>
          match findAdditionalKwargsArg argList with
          | none => false
          | some additionalKwargsArg =>
            match getKeywordArgumentValue additionalKwargsArg with
            | none => true
            | some additionalKwargsValue =>
              additionalKwargsValue.kind == "dictionary"
                && (findExistingExampleKey additionalKwargsValue).isSome

/-! ## response-format-tool-strategy codemod
(`src/codemods/response-format-tool-strategy/scripts/codemod.ts`) -/

/-- The inserted import line. -/
def toolStrategyImportLine : List Char :=
  chars "from langchain.agents.structured_output import ToolStrategy"

/-- The from-import statements of the file. -/
def rfFromImports (rootNode : Node) : List Node :=
  rootNode.findAllP (fun n => n.kind == "import_from_statement")

/-- Source `hasToolStrategyImport`: some `import_from_statement` whose text contains
both `langchain.agents.structured_output` and `ToolStrategy`. -/
def hasToolStrategyImport (rootNode : Node) : Bool :=
  (rfFromImports rootNode).any
    (fun importNode =>
      hasSubstring importNode.text (chars "langchain.agents.structured_output")
        && hasSubstring importNode.text (chars "ToolStrategy"))

/-- All import statements of the file (both plain and from-imports). -/
def rfImports (rootNode : Node) : List Node :=
  rootNode.findAllP (fun n =>
    n.kind == "import_statement" || n.kind == "import_from_statement")

/-- Source `findImportInsertPosition`: 0 when there are no imports, else the
maximal end offset over all import statements. -/
def findImportInsertPosition (rootNode : Node) : Nat :=
  let imports := rfImports rootNode
  if imports.isEmpty then 0
  else imports.foldl (fun acc i => max acc i.span.stop) 0

/-- Source `isAlreadyWrapped`: a call to `ToolStrategy` or `ProviderStrategy`. -/
def isAlreadyWrapped (node : Node) : Bool :=
  node.kind == "call" &&
    (match node.field "function" with
     | none => false
     | some funcNode =>
       funcNode.text == chars "ToolStrategy"
         || funcNode.text == chars "ProviderStrategy")

/-- The `create_agent(...)` calls the response-format transform visits. -/
def rfCalls (rootNode : Node) : List Node :=
  rootNode.findAllP (fun n =>
    n.kind == "call" &&
      (match n.field "function" with
       | some f => f.kind == "identifier" && f.text == chars "create_agent"
       | none => false))

/-- The `response_format=` value of one `create_agent` call: first
`keyword_argument` descendant of the argument list whose `name` field is the
identifier `response_format`, then its `value` field. -/
def rfSiteValue (call : Node) : Option Node :=
  match call.field "arguments" with
  | none => none
  | some argsNode =>
    match argsNode.findP (fun n =>
        n.kind == "keyword_argument" &&
          (match n.field "name" with
           | some f => f.kind == "identifier" && f.text == chars "response_format"
           | none => false)) with
    | none => none
    | some responseFormatArg => responseFormatArg.field "value"

/-- Edit planned for one `create_agent` call: wrap the `response_format`
value in `ToolStrategy(...)` unless the site is missing, a tuple (warn and
skip), or already wrapped. -/
def planRF (call : Node) : Option Edit :=
  match rfSiteValue call with
  | none => none
  | some valueNode =>
    if valueNode.kind == "tuple" then none
    else if isAlreadyWrapped valueNode then none
    else
      some (replaceNode valueNode
        (chars "ToolStrategy(" ++ valueNode.text ++ chars ")"))

/-- The wrapping edits of the response-format transform. -/
def rfWrapEdits (rootNode : Node) : List Edit :=
  (rfCalls rootNode).filterMap planRF

/-- The import-insertion edit: at offset 0 with two trailing newlines when
the insert position is 0, else a zero-width edit right after the last import
with one leading newline. -/
def rfImportEdit (rootNode : Node) : Edit :=
  let insertPos := findImportInsertPosition rootNode
  if insertPos == 0 then
    { startPos := 0, endPos := 0,
      insertedText := toolStrategyImportLine ++ chars "\n\n" }
  else
    { startPos := insertPos, endPos := insertPos,
      insertedText := chars "\n" ++ toolStrategyImportLine }

/-- The full edit list the response-format transform commits: the wrap edits,
plus the import edit when at least one wrap happened and the import is not
already present. -/
def rfAllEdits (rootNode : Node) : List Edit :=
  let edits := rfWrapEdits rootNode
  if !edits.isEmpty && !hasToolStrategyImport rootNode then
    edits ++ [rfImportEdit rootNode]
  else edits

/-- The response-format transform: unchanged sentinel when no wrap edit was
planned, else commit the wrap edits plus the possible import insertion. -/
def transformRF (rootNode : Node) : Option (List Char) :=
  if (rfWrapEdits rootNode).isEmpty then none
  else some (commitEdits rootNode.text (rfAllEdits rootNode))

/-- Decidable form of "the site would be skipped": no `response_format`
value, a tuple value, or an already wrapped value. -/
def rfSiteSkippable (call : Node) : Bool :=
  match rfSiteValue call with
  | none => true
  | some valueNode => valueNode.kind == "tuple" || isAlreadyWrapped valueNode

/-- Decidable form of "the site is a tuple (ambiguous, warn and skip)". -/
def rfTupleSite (call : Node) : Bool :=
  match rfSiteValue call with
  | none => false
  | some valueNode => valueNode.kind == "tuple"

/-! ## langchain-classic-imports codemod
(script source embedded in `src/codemods/langchain-classic-imports/README.md`) -/

/-- Source `isHubImport`: `from langchain import hub` (possibly aliased). -/
def isHubImport (node : Node) : Bool :=
  match node.field "module_name" with
  | none => false
  | some moduleNameNode =>
    moduleNameNode.text == chars "langchain" &&
      (node.fieldChildren "name").any (fun nameNode =>
        nameNode.text == chars "hub"
          || (chars "hub ").isPrefixOf nameNode.text)

/-- Source `isLegacyModuleImport`: the module is `langchain.retrievers` or
`langchain.indexes`, or a submodule of either. -/
def isLegacyModuleImport (node : Node) : Bool :=
  match node.field "module_name" with
  | none => false
  | some moduleNameNode =>
    [chars "retrievers", chars "indexes"].any (fun legacyModule =>
      moduleNameNode.text == chars "langchain." ++ legacyModule
        || (chars "langchain." ++ legacyModule ++ chars ".").isPrefixOf
             moduleNameNode.text)

/-- Source `isAlreadyMigrated`: the module is `langchain_classic` or starts with
`langchain_classic.`. -/
def isAlreadyMigrated (node : Node) : Bool :=
  match node.field "module_name" with
  | none => false
  | some moduleNameNode =>
    (chars "langchain_classic.").isPrefixOf moduleNameNode.text
      || moduleNameNode.text == chars "langchain_classic"

/-- Source `createImportEdit` (langchain-classic): replace the module name,
substituting the leading `langchain.` by `langchain_classic.` (or the bare
`langchain` by `langchain_classic`). -/
def createImportEditLC (node : Node) : Option Edit :=
  match node.field "module_name" with
  | none => none
  | some moduleNameNode =>
    let moduleText := moduleNameNode.text
    let newModuleName :=
      if (chars "langchain.").isPrefixOf moduleText then
        chars "langchain_classic." ++ moduleText.drop (chars "langchain.").length
      else moduleText
    let finalModuleName :=
      if moduleText == chars "langchain" then chars "langchain_classic"
      else newModuleName
    some { startPos := moduleNameNode.span.start,
           endPos := moduleNameNode.span.stop,
           insertedText := finalModuleName }

/-- The import statements the langchain-classic transform visits. -/
def lcImports (rootNode : Node) : List Node :=
  rootNode.findAllP (fun n => n.kind == "import_from_statement")

/-- Edit planned for one import statement: skip already-migrated imports,
rewrite hub and legacy-module imports. -/
def planLC (importNode : Node) : Option Edit :=
  if isAlreadyMigrated importNode then none
  else if isHubImport importNode || isLegacyModuleImport importNode then
    createImportEditLC importNode
  else none

/-- The langchain-classic transform. -/
def transformLC (rootNode : Node) : Option (List Char) :=
  let edits := (lcImports rootNode).filterMap planLC
  if edits.isEmpty then none
  else some (commitEdits rootNode.text edits)

/-- Decidable form of "the import is skipped by the detector": already
migrated, or neither a hub import nor a legacy-module import. -/
def lcImportSkipped (importNode : Node) : Bool :=
  isAlreadyMigrated importNode
    || !(isHubImport importNode || isLegacyModuleImport importNode)

/-! ## prompt-to-system-prompt codemod
(script source embedded in `src/codemods/prompt-to-system-prompt/README.md`).
The script's semantic-analysis step (`funcNode.definition()` and the module
check on the resolved import) is modelled by an oracle parameter
`defRejects : Node → Bool`: `true` on a function node means the semantic
block decides to skip that call. -/

/-- The `create_agent` / `create_react_agent` calls the transform visits. -/
def p2spCalls (rootNode : Node) : List Node :=
  rootNode.findAllP (fun n =>
    n.kind == "call" &&
      (match n.field "function" with
       | some f =>
         f.kind == "identifier" &&
           (f.text == chars "create_agent" || f.text == chars "create_react_agent")
       | none => false))

/-- All keyword arguments of the call's argument list (empty when the
`arguments` field is missing or not an `argument_list`). -/
def p2spKwargs (call : Node) : List Node :=
  match call.field "arguments" with
  | none => []
  | some argList =>
    if argList.kind == "argument_list" then
      argList.findAllP (fun n => n.kind == "keyword_argument")
    else []

/-- The `prompt=` keyword argument (the loop keeps the last one seen). -/
def p2spPromptArg (call : Node) : Option Node :=
  (p2spKwargs call).foldl
    (fun acc kwArg =>
      match kwArg.field "name" with
      | none => acc
      | some nameNode =>
        if nameNode.text == chars "prompt" then some kwArg else acc)
    none

/-- Whether a `system_prompt=` keyword argument is present. -/
def p2spHasSystemPrompt (call : Node) : Bool :=
  (p2spKwargs call).any (fun kwArg =>
    match kwArg.field "name" with
    | none => false
    | some nameNode => nameNode.text == chars "system_prompt")

/-- The ambiguous situation the script warns about and skips: both
`prompt=` and `system_prompt=` present on one call. -/
def p2spAmbiguous (call : Node) : Bool :=
  (p2spPromptArg call).isSome && p2spHasSystemPrompt call

/-- The keyword-name identifier node the transform will rewrite for one
call, `none` when the call is skipped (missing function node, semantic
rejection, bad argument list, no `prompt=`, or the ambiguous case). -/
def p2spSiteName (defRejects : Node → Bool) (call : Node) : Option Node :=
  match call.field "function" with
  | none => none
  | some funcNode =>
    if defRejects funcNode then none
    else
      match p2spPromptArg call with
      | none => none
      | some promptArg =>
        if p2spHasSystemPrompt call then none
        else promptArg.field "name"

/-- Edit planned for one call: replace exactly the keyword-name node's span
by `system_prompt`. -/
def planP2SP (defRejects : Node → Bool) (call : Node) : Option Edit :=
  (p2spSiteName defRejects call).map (fun nameNode =>
    { startPos := nameNode.span.start, endPos := nameNode.span.stop,
      insertedText := chars "system_prompt" })

/-- The edit list of the prompt-to-system-prompt transform. -/
def p2spEdits (defRejects : Node → Bool) (rootNode : Node) : List Edit :=
  (p2spCalls rootNode).filterMap (planP2SP defRejects)

/-- The prompt-to-system-prompt transform. -/
def transformP2SP (defRejects : Node → Bool) (rootNode : Node) :
    Option (List Char) :=
  let edits := p2spEdits defRejects rootNode
  if edits.isEmpty then none
  else some (commitEdits rootNode.text edits)

/-! ## text-method-to-property codemod
(`src/codemods/text-method-to-property/scripts/codemod.ts`) -/

/-- The `.text(...)` method calls the transform visits: calls whose function
is an attribute whose `attribute` field is the identifier `text`. -/
def tmpCalls (rootNode : Node) : List Node :=
  rootNode.findAllP (fun n =>
    n.kind == "call" &&
      (match n.field "function" with
       | some f =>
         f.kind == "attribute" &&
           (match f.field "attribute" with
            | some attrName =>
              attrName.kind == "identifier" && attrName.text == chars "text"
            | none => false)
       | none => false))

/-- Edit planned for one `.text()` call: skip when the argument list has any
named child (real arguments), else replace the whole call by the attribute's
text. -/
def planTMP (callNode : Node) : Option Edit :=
  match callNode.field "arguments" with
  | none => none
  | some argsNode =>
    if (argsNode.childNodes.filter (fun c => c.named)).length > 0 then none
    else
      match callNode.field "function" with
      | none => none
      | some attrNode => some (replaceNode callNode attrNode.text)

/-- The edit list of the text-method-to-property transform. -/
def tmpEdits (rootNode : Node) : List Edit :=
  (tmpCalls rootNode).filterMap planTMP

/-- The text-method-to-property transform. -/
def transformTMP (rootNode : Node) : Option (List Char) :=
  let edits := tmpEdits rootNode
  if edits.isEmpty then none
  else some (commitEdits rootNode.text edits)

/-! ## Rendered comma-separated-list families

Parametric buffers and trees for the separator-cleanup proofs: an argument
list `(e1, e2, ..., en)` and an import statement `from M import n1, n2, ...`
rendered with the standard `", "` separator, together with the nodes a
parse of that buffer yields for the elements and separators. -/

/-- Join texts with the `", "` separator. -/
def joinComma : List (List Char) → List Char
  | [] => []
  | [e] => e
  | e :: rest => e ++ chars ", " ++ joinComma rest

/-- The rendered argument list `(e1, e2, ..., en)`. -/
def renderArgs (es : List (List Char)) : List Char :=
  chars "(" ++ joinComma es ++ chars ")"

/-- Offset of element `i` relative to the start of `joinComma es`. -/
def relPos : List (List Char) → Nat → Nat
  | _, 0 => 0
  | [], _ + 1 => 0
  | e :: rest, i + 1 => e.length + 2 + relPos rest i

/-- The node of element `i` in a list rendered from offset `b`. -/
def argNodeAt (b : Nat) (es : List (List Char)) (i : Nat) : Node :=
  .mk "argument" ⟨b + relPos es i, b + relPos es i + (es.getD i []).length⟩
    (es.getD i []) true .nil

/-- The node of the comma separator following element `i`. -/
def commaAt (b : Nat) (es : List (List Char)) (i : Nat) : Node :=
  .mk ","
    ⟨b + relPos es i + (es.getD i []).length,
     b + relPos es i + (es.getD i []).length + 1⟩
    (chars ",") false .nil

/-- The labelled element and separator children of a rendered list, from
offset `b`: element, comma, element, comma, ..., element. -/
def argTokenPairs (b : Nat) : List (List Char) → List (Option String × Node)
  | [] => []
  | [e] => [(none, Node.mk "argument" ⟨b, b + e.length⟩ e true .nil)]
  | e :: rest =>
    (none, Node.mk "argument" ⟨b, b + e.length⟩ e true .nil)
      :: (none, Node.mk "," ⟨b + e.length, b + e.length + 1⟩ (chars ",") false .nil)
      :: argTokenPairs (b + e.length + 2) rest

/-- The `argument_list` node of the rendered argument list: `(` token,
elements interleaved with comma tokens, `)` token, as tree-sitter parses
`(e1, e2, ..., en)`. -/
def argListNodeOf (es : List (List Char)) : Node :=
  .mk "argument_list" ⟨0, (renderArgs es).length⟩ (renderArgs es) true
    (Children.ofList
      ((none, Node.mk "(" ⟨0, 1⟩ (chars "(") false .nil)
        :: argTokenPairs 1 es
        ++ [(none, Node.mk ")"
              ⟨1 + (joinComma es).length, 2 + (joinComma es).length⟩
              (chars ")") false .nil)]))

/-- The rendered import statement `from M import n1, n2, ..., nk`. -/
def renderImport (m : List Char) (names : List (List Char)) : List Char :=
  chars "from " ++ m ++ chars " import " ++ joinComma names

/-- Offset of the start of the imported-names list in `renderImport`. -/
def importBase (m : List Char) : Nat :=
  m.length + 13

/-- The span of imported name `j` inside `renderImport m names`. -/
def importNameSpan (m : List Char) (names : List (List Char)) (j : Nat) : Span :=
  ⟨importBase m + relPos names j,
   importBase m + relPos names j + (names.getD j []).length⟩

/-! ## Concrete trees

Hand parses (tree-sitter Python grammar) of the concrete buffers used by
the counterexamples and witnesses.  Each node records its kind, byte span,
verbatim slice, named flag and labelled children. -/

/-- A named node from kind, span bounds, text and children. -/
def nd (k : String) (s e : Nat) (t : String)
    (cs : List (Option String × Node)) : Node :=
  .mk k ⟨s, e⟩ (chars t) true (Children.ofList cs)

/-- An anonymous token node whose text equals its kind. -/
def tok (k : String) (s e : Nat) : Node :=
  .mk k ⟨s, e⟩ (chars k) false Children.nil

/-- The statement `from langgraph.prebuilt import ToolNode` at offset 0. -/
def importToolNodeStmt : Node :=
  nd "import_from_statement" 0 39 "from langgraph.prebuilt import ToolNode"
    [(none, tok "from" 0 4),
     (some "module_name", nd "dotted_name" 5 23 "langgraph.prebuilt"
        [(none, nd "identifier" 5 14 "langgraph" []),
         (none, tok "." 14 15),
         (none, nd "identifier" 15 23 "prebuilt" [])]),
     (none, tok "import" 24 30),
     (some "name", nd "dotted_name" 31 39 "ToolNode"
        [(none, nd "identifier" 31 39 "ToolNode" [])])]

/-- Buffer of the C1 failing input: a transformed `tools=ToolNode(x)` site
plus a bare reference `f = ToolNode` that the usage counter misses. -/
def c1Src : List Char :=
  chars "from langgraph.prebuilt import ToolNode\nagent = create_agent(tools=ToolNode(x))\nf = ToolNode\n"

/-- Parse of `c1Src`. -/
def c1Root : Node :=
  .mk "module" ⟨0, 93⟩ c1Src true (Children.ofList
    [(none, importToolNodeStmt),
     (none, nd "expression_statement" 40 79 "agent = create_agent(tools=ToolNode(x))"
        [(none, nd "assignment" 40 79 "agent = create_agent(tools=ToolNode(x))"
           [(some "left", nd "identifier" 40 45 "agent" []),
            (none, tok "=" 46 47),
            (some "right", nd "call" 48 79 "create_agent(tools=ToolNode(x))"
              [(some "function", nd "identifier" 48 60 "create_agent" []),
               (some "arguments", nd "argument_list" 60 79 "(tools=ToolNode(x))"
                 [(none, tok "(" 60 61),
                  (none, nd "keyword_argument" 61 78 "tools=ToolNode(x)"
                    [(some "name", nd "identifier" 61 66 "tools" []),
                     (none, tok "=" 66 67),
                     (some "value", nd "call" 67 78 "ToolNode(x)"
                       [(some "function", nd "identifier" 67 75 "ToolNode" []),
                        (some "arguments", nd "argument_list" 75 78 "(x)"
                          [(none, tok "(" 75 76),
                           (none, nd "identifier" 76 77 "x" []),
                           (none, tok ")" 77 78)])])]),
                  (none, tok ")" 78 79)])])])]),
     (none, nd "expression_statement" 80 92 "f = ToolNode"
        [(none, nd "assignment" 80 92 "f = ToolNode"
           [(some "left", nd "identifier" 80 81 "f" []),
            (none, tok "=" 82 83),
            (some "right", nd "identifier" 84 92 "ToolNode" [])])])])

/-- Buffer of the C2 input: an import followed by a pre-existing blank line. -/
def c2Src : List Char :=
  chars "from langgraph.prebuilt import ToolNode\n\nx = 1\n"

/-- Parse of `c2Src`. -/
def c2Root : Node :=
  .mk "module" ⟨0, 47⟩ c2Src true (Children.ofList
    [(none, importToolNodeStmt),
     (none, nd "expression_statement" 41 46 "x = 1"
        [(none, nd "assignment" 41 46 "x = 1"
           [(some "left", nd "identifier" 41 42 "x" []),
            (none, tok "=" 43 44),
            (some "right", nd "integer" 45 46 "1" [])])])])

/-- Buffer of the C3 input: a three-name import with `ToolNode` in the
middle. -/
def c3Src : List Char :=
  chars "from m import a, ToolNode, b\n"

/-- The import statement of `c3Src`. -/
def c3ImportStmt : Node :=
  nd "import_from_statement" 0 28 "from m import a, ToolNode, b"
    [(none, tok "from" 0 4),
     (some "module_name", nd "dotted_name" 5 6 "m"
        [(none, nd "identifier" 5 6 "m" [])]),
     (none, tok "import" 7 13),
     (some "name", nd "dotted_name" 14 15 "a"
        [(none, nd "identifier" 14 15 "a" [])]),
     (none, tok "," 15 16),
     (some "name", nd "dotted_name" 17 25 "ToolNode"
        [(none, nd "identifier" 17 25 "ToolNode" [])]),
     (none, tok "," 25 26),
     (some "name", nd "dotted_name" 27 28 "b"
        [(none, nd "identifier" 27 28 "b" [])])]

/-- Parse of `c3Src`. -/
def c3Root : Node :=
  .mk "module" ⟨0, 29⟩ c3Src true (Children.ofList [(none, c3ImportStmt)])

/-- Parse of
`AIMessage(content="hi", example=True, additional_kwargs=\x7b"example": 1\x7d)`
followed by a newline: the mapping already contains the `"example"` key. -/
def c4Root : Node :=
  .mk "module" ⟨0, 72⟩
    (chars "AIMessage(content=\"hi\", example=True, additional_kwargs=\x7b\"example\": 1\x7d)\n")
    true (Children.ofList
    [(none, nd "expression_statement" 0 71
        "AIMessage(content=\"hi\", example=True, additional_kwargs=\x7b\"example\": 1\x7d)"
        [(none, nd "call" 0 71
            "AIMessage(content=\"hi\", example=True, additional_kwargs=\x7b\"example\": 1\x7d)"
            [(some "function", nd "identifier" 0 9 "AIMessage" []),
             (some "arguments", nd "argument_list" 9 71
                "(content=\"hi\", example=True, additional_kwargs=\x7b\"example\": 1\x7d)"
                [(none, tok "(" 9 10),
                 (none, nd "keyword_argument" 10 22 "content=\"hi\""
                   [(some "name", nd "identifier" 10 17 "content" []),
                    (none, tok "=" 17 18),
                    (some "value", nd "string" 18 22 "\"hi\""
                      [(none, tok "\"" 18 19),
                       (none, nd "string_content" 19 21 "hi" []),
                       (none, tok "\"" 21 22)])]),
                 (none, tok "," 22 23),
                 (none, nd "keyword_argument" 24 36 "example=True"
                   [(some "name", nd "identifier" 24 31 "example" []),
                    (none, tok "=" 31 32),
                    (some "value", nd "true" 32 36 "True" [])]),
                 (none, tok "," 36 37),
                 (none, nd "keyword_argument" 38 70
                    "additional_kwargs=\x7b\"example\": 1\x7d"
                   [(some "name", nd "identifier" 38 55 "additional_kwargs" []),
                    (none, tok "=" 55 56),
                    (some "value", nd "dictionary" 56 70 "\x7b\"example\": 1\x7d"
                      [(none, tok "\x7b" 56 57),
                       (none, nd "pair" 57 69 "\"example\": 1"
                         [(some "key", nd "string" 57 66 "\"example\""
                            [(none, tok "\"" 57 58),
                             (none, nd "string_content" 58 65 "example" []),
                             (none, tok "\"" 65 66)]),
                          (none, tok ":" 66 67),
                          (some "value", nd "integer" 68 69 "1" [])]),
                       (none, tok "\x7d" 69 70)])]),
                 (none, tok ")" 70 71)])])])])

/-- Parse of `agent = create_agent(response_format=ToolStrategy(Out))` plus
newline — the shape the response-format pass leaves behind. -/
def c6RFRoot : Node :=
  .mk "module" ⟨0, 56⟩
    (chars "agent = create_agent(response_format=ToolStrategy(Out))\n")
    true (Children.ofList
    [(none, nd "expression_statement" 0 55
        "agent = create_agent(response_format=ToolStrategy(Out))"
        [(none, nd "assignment" 0 55
            "agent = create_agent(response_format=ToolStrategy(Out))"
            [(some "left", nd "identifier" 0 5 "agent" []),
             (none, tok "=" 6 7),
             (some "right", nd "call" 8 55
                "create_agent(response_format=ToolStrategy(Out))"
                [(some "function", nd "identifier" 8 20 "create_agent" []),
                 (some "arguments", nd "argument_list" 20 55
                    "(response_format=ToolStrategy(Out))"
                    [(none, tok "(" 20 21),
                     (none, nd "keyword_argument" 21 54
                        "response_format=ToolStrategy(Out)"
                        [(some "name", nd "identifier" 21 36 "response_format" []),
                         (none, tok "=" 36 37),
                         (some "value", nd "call" 37 54 "ToolStrategy(Out)"
                           [(some "function", nd "identifier" 37 49 "ToolStrategy" []),
                            (some "arguments", nd "argument_list" 49 54 "(Out)"
                              [(none, tok "(" 49 50),
                               (none, nd "identifier" 50 53 "Out" []),
                               (none, tok ")" 53 54)])])]),
                     (none, tok ")" 54 55)])])])])])

/-- Parse of `from langchain_classic.retrievers import X` plus newline — the
shape the langchain-classic pass leaves behind. -/
def c6LCRoot : Node :=
  .mk "module" ⟨0, 43⟩
    (chars "from langchain_classic.retrievers import X\n")
    true (Children.ofList
    [(none, nd "import_from_statement" 0 42
        "from langchain_classic.retrievers import X"
        [(none, tok "from" 0 4),
         (some "module_name", nd "dotted_name" 5 33 "langchain_classic.retrievers"
           [(none, nd "identifier" 5 22 "langchain_classic" []),
            (none, tok "." 22 23),
            (none, nd "identifier" 23 33 "retrievers" [])]),
         (none, tok "import" 34 40),
         (some "name", nd "dotted_name" 41 42 "X"
           [(none, nd "identifier" 41 42 "X" [])])])])

/-- The ambiguous call `create_agent(prompt=a, system_prompt=b)` at
offset 0. -/
def c7AmbCall : Node :=
  nd "call" 0 39 "create_agent(prompt=a, system_prompt=b)"
    [(some "function", nd "identifier" 0 12 "create_agent" []),
     (some "arguments", nd "argument_list" 12 39 "(prompt=a, system_prompt=b)"
        [(none, tok "(" 12 13),
         (none, nd "keyword_argument" 13 21 "prompt=a"
           [(some "name", nd "identifier" 13 19 "prompt" []),
            (none, tok "=" 19 20),
            (some "value", nd "identifier" 20 21 "a" [])]),
         (none, tok "," 21 22),
         (none, nd "keyword_argument" 23 38 "system_prompt=b"
           [(some "name", nd "identifier" 23 36 "system_prompt" []),
            (none, tok "=" 36 37),
            (some "value", nd "identifier" 37 38 "b" [])]),
         (none, tok ")" 38 39)])]

/-- The unambiguous call `create_agent(prompt=c)` at offset 40. -/
def c7GoodCall : Node :=
  nd "call" 40 62 "create_agent(prompt=c)"
    [(some "function", nd "identifier" 40 52 "create_agent" []),
     (some "arguments", nd "argument_list" 52 62 "(prompt=c)"
        [(none, tok "(" 52 53),
         (none, nd "keyword_argument" 53 61 "prompt=c"
           [(some "name", nd "identifier" 53 59 "prompt" []),
            (none, tok "=" 59 60),
            (some "value", nd "identifier" 60 61 "c" [])]),
         (none, tok ")" 61 62)])]

/-- Parse of
`create_agent(prompt=a, system_prompt=b)\ncreate_agent(prompt=c)\n`:
one ambiguous call followed by one transformable call. -/
def c7P2SPRoot : Node :=
  .mk "module" ⟨0, 63⟩
    (chars "create_agent(prompt=a, system_prompt=b)\ncreate_agent(prompt=c)\n")
    true (Children.ofList
    [(none, nd "expression_statement" 0 39 "create_agent(prompt=a, system_prompt=b)"
        [(none, c7AmbCall)]),
     (none, nd "expression_statement" 40 62 "create_agent(prompt=c)"
        [(none, c7GoodCall)])])

/-- The tuple-form call `create_agent(response_format=(p, s))` at offset 0. -/
def c7TupleCall : Node :=
  nd "call" 0 36 "create_agent(response_format=(p, s))"
    [(some "function", nd "identifier" 0 12 "create_agent" []),
     (some "arguments", nd "argument_list" 12 36 "(response_format=(p, s))"
        [(none, tok "(" 12 13),
         (none, nd "keyword_argument" 13 35 "response_format=(p, s)"
           [(some "name", nd "identifier" 13 28 "response_format" []),
            (none, tok "=" 28 29),
            (some "value", nd "tuple" 29 35 "(p, s)"
              [(none, tok "(" 29 30),
               (none, nd "identifier" 30 31 "p" []),
               (none, tok "," 31 32),
               (none, nd "identifier" 33 34 "s" []),
               (none, tok ")" 34 35)])]),
         (none, tok ")" 35 36)])]

/-- The plain call `create_agent(response_format=Out)` at offset 37. -/
def c7WrapCall : Node :=
  nd "call" 37 70 "create_agent(response_format=Out)"
    [(some "function", nd "identifier" 37 49 "create_agent" []),
     (some "arguments", nd "argument_list" 49 70 "(response_format=Out)"
        [(none, tok "(" 49 50),
         (none, nd "keyword_argument" 50 69 "response_format=Out"
           [(some "name", nd "identifier" 50 65 "response_format" []),
            (none, tok "=" 65 66),
            (some "value", nd "identifier" 66 69 "Out" [])]),
         (none, tok ")" 69 70)])]

/-- Parse of
`create_agent(response_format=(p, s))\ncreate_agent(response_format=Out)\n`:
one tuple-form (ambiguous) call, one transformable call. -/
def c7RFRoot : Node :=
  .mk "module" ⟨0, 71⟩
    (chars "create_agent(response_format=(p, s))\ncreate_agent(response_format=Out)\n")
    true (Children.ofList
    [(none, nd "expression_statement" 0 36 "create_agent(response_format=(p, s))"
        [(none, c7TupleCall)]),
     (none, nd "expression_statement" 37 70 "create_agent(response_format=Out)"
        [(none, c7WrapCall)])])

/-- Parse of `x = 1` plus newline: a buffer no rule matches. -/
def c8Root : Node :=
  .mk "module" ⟨0, 6⟩ (chars "x = 1\n") true (Children.ofList
    [(none, nd "expression_statement" 0 5 "x = 1"
        [(none, nd "assignment" 0 5 "x = 1"
           [(some "left", nd "identifier" 0 1 "x" []),
            (none, tok "=" 2 3),
            (some "right", nd "integer" 4 5 "1" [])])])])

/-- The keyword-name node `prompt` of the C9 input. -/
def c9NameNode : Node :=
  nd "identifier" 13 19 "prompt" []

/-- The call `create_agent(prompt=x)` at offset 0. -/
def c9Call : Node :=
  nd "call" 0 22 "create_agent(prompt=x)"
    [(some "function", nd "identifier" 0 12 "create_agent" []),
     (some "arguments", nd "argument_list" 12 22 "(prompt=x)"
        [(none, tok "(" 12 13),
         (none, nd "keyword_argument" 13 21 "prompt=x"
           [(some "name", c9NameNode),
            (none, tok "=" 19 20),
            (some "value", nd "identifier" 20 21 "x" [])]),
         (none, tok ")" 21 22)])]

/-- Parse of `create_agent(prompt=x)` plus newline. -/
def c9Root : Node :=
  .mk "module" ⟨0, 23⟩ (chars "create_agent(prompt=x)\n") true (Children.ofList
    [(none, nd "expression_statement" 0 22 "create_agent(prompt=x)"
        [(none, c9Call)])])

/-- The statement `import os` at offset 0. -/
def c10ImportStmt : Node :=
  nd "import_statement" 0 9 "import os"
    [(none, tok "import" 0 6),
     (some "name", nd "dotted_name" 7 9 "os"
        [(none, nd "identifier" 7 9 "os" [])])]

/-- Parse of `import os\nagent = create_agent(response_format=Out)\n`. -/
def c10Root : Node :=
  .mk "module" ⟨0, 52⟩
    (chars "import os\nagent = create_agent(response_format=Out)\n")
    true (Children.ofList
    [(none, c10ImportStmt),
     (none, nd "expression_statement" 10 51
        "agent = create_agent(response_format=Out)"
        [(none, nd "assignment" 10 51 "agent = create_agent(response_format=Out)"
           [(some "left", nd "identifier" 10 15 "agent" []),
            (none, tok "=" 16 17),
            (some "right", nd "call" 18 51 "create_agent(response_format=Out)"
              [(some "function", nd "identifier" 18 30 "create_agent" []),
               (some "arguments", nd "argument_list" 30 51 "(response_format=Out)"
                 [(none, tok "(" 30 31),
                  (none, nd "keyword_argument" 31 50 "response_format=Out"
                    [(some "name", nd "identifier" 31 46 "response_format" []),
                     (none, tok "=" 46 47),
                     (some "value", nd "identifier" 47 50 "Out" [])]),
                  (none, tok ")" 50 51)])])])])])

/-- The statement `from langchain.agents.structured_output import ToolStrategy`
at offset 0. -/
def c10BImportStmt : Node :=
  nd "import_from_statement" 0 59
    "from langchain.agents.structured_output import ToolStrategy"
    [(none, tok "from" 0 4),
     (some "module_name", nd "dotted_name" 5 39 "langchain.agents.structured_output"
        [(none, nd "identifier" 5 14 "langchain" []),
         (none, tok "." 14 15),
         (none, nd "identifier" 15 21 "agents" []),
         (none, tok "." 21 22),
         (none, nd "identifier" 22 39 "structured_output" [])]),
     (none, tok "import" 40 46),
     (some "name", nd "dotted_name" 47 59 "ToolStrategy"
        [(none, nd "identifier" 47 59 "ToolStrategy" [])])]

/-- Parse of the single-line buffer holding `c10BImportStmt`. -/
def c10RootB : Node :=
  .mk "module" ⟨0, 60⟩
    (chars "from langchain.agents.structured_output import ToolStrategy\n")
    true (Children.ofList [(none, c10BImportStmt)])

/-! ## General lemmas about the committer and list helpers -/

/-- A flat-map over functions returning nil is nil. -/
theorem flatMap_eq_nil_of_forall {α β : Type} (l : List α) (f : α → List β)
    (h : ∀ a ∈ l, f a = []) : l.flatMap f = [] := by
  induction l with
  | nil => rfl
  | cons a t ih =>
    simp only [List.flatMap_cons, h a (by simp), List.nil_append]
    exact ih (fun x hx => h x (by simp [hx]))

/-- Committing a single edit splices its replacement between the text before
its start and the text after its end. -/
theorem commitEdits_single (src : List Char) (e : Edit) :
    commitEdits src [e] =
      src.take e.startPos ++ e.insertedText ++ src.drop e.endPos := by
  simp [commitEdits, sortEdits, insertEdit, spliceEdits]

/-! ## C1 and C2 -/

/-- C1: the conservative-import-pruning property fails on the code.  On the
buffer `from langgraph.prebuilt import ToolNode` / `agent =
create_agent(tools=ToolNode(x))` / `f = ToolNode`, the bound symbol
`ToolNode` has `N = 2` occurrences outside import statements and the pass
rewrites exactly `K = 1` of them away, so with `N - K = 1 > 0` the claim
requires the import to be kept; but `countToolNodeUsages` counts only direct
`ToolNode(...)` call expressions, misses the bare reference `f = ToolNode`,
and the transform deletes the import line, as the committed output shows:
the symbol `ToolNode` is still referenced yet its import is gone. -/
theorem c1_pruning_removes_live_import :
    occurrencesOutsideImports (chars "ToolNode") c1Root = 2 ∧
    (unwrapRewriteEdits c1Root).length = 1 ∧
    transformUnwrap c1Root =
      some (chars "agent = create_agent(tools=x)\nf = ToolNode\n") :=
  ⟨rfl, rfl, rfl⟩

/-- C2 counterexample: on the buffer
`from langgraph.prebuilt import ToolNode\n\nx = 1\n` — an import statement
with span `[0, 39)` followed by its line terminator and a pre-existing blank
line — the whole-statement removal planned by `createImportRemovalEdit` ends
at offset `41 = 39 + 2`: it consumes a second line terminator beyond the
statement's own line, so the pre-existing blank line is not preserved,
contradicting the claim that the removed span is the statement plus at most
one trailing terminator. -/
theorem c2_counterexample :
    createImportRemovalEdit c2Root 0 =
      some { startPos := 0, endPos := importToolNodeStmt.span.stop + 2,
             insertedText := [] } ∧
    commitEdits c2Src [{ startPos := 0, endPos := 41, insertedText := [] }] =
      chars "x = 1\n" :=
  ⟨rfl, rfl⟩

/-- C2 (amended): for a whole-statement removal, the
system-message-to-prompt planner (`buildImportEdit`) removes the statement
span plus exactly one trailing line terminator when present and never a
second one, while the unwrap-tool-node planner (`createImportRemovalEdit`,
via `unwrapStmtEnd`) removes one trailing terminator and, when a second
terminator immediately follows (a pre-existing blank line), also consumes
that one — at most two in total and the second only when it was already
present. -/
theorem c2_statement_removal_newlines :
    (∀ t e, smtpStmtEnd t e =
        if e < t.length ∧ t.getD e ' ' = '\n' then e + 1 else e) ∧
    (∀ t e, unwrapStmtEnd t e =
        if e < t.length ∧ t.getD e ' ' = '\n' then
          if e + 1 < t.length ∧ t.getD (e + 1) ' ' = '\n' then e + 2 else e + 1
        else e) ∧
    (∀ rootNode importStmt, buildImportEdit rootNode importStmt false =
        some { startPos := importStmt.span.start,
               endPos := smtpStmtEnd rootNode.text importStmt.span.stop,
               insertedText := [] }) ∧
    (∀ t e, smtpStmtEnd t e ≤ e + 1) ∧
    (∀ t e, unwrapStmtEnd t e ≤ e + 2) := by
  refine ⟨?_, ?_, ?_, ?_, ?_⟩
  · intro t e
    by_cases h1 : e < t.length
    · by_cases h2 : t.getD e ' ' = '\n' <;> simp [smtpStmtEnd, h1, h2]
    · simp [smtpStmtEnd, h1]
  · intro t e
    by_cases h1 : e < t.length
    · by_cases h2 : t.getD e ' ' = '\n'
      · by_cases h3 : e + 1 < t.length
        · by_cases h4 : t.getD (e + 1) ' ' = '\n' <;>
            simp [unwrapStmtEnd, h1, h2, h3, h4]
        · simp [unwrapStmtEnd, h1, h2, h3]
      · simp [unwrapStmtEnd, h1, h2]
    · simp [unwrapStmtEnd, h1]
  · intro rootNode importStmt
    simp [buildImportEdit]
  · intro t e
    unfold smtpStmtEnd
    split <;> omega
  · intro t e
    unfold unwrapStmtEnd
    split
    · split <;> omega
    · omega

/-! ## C4: merge-no-overwrite -/

/-- When the decline condition holds at a call, the aimessage planner emits
no edit for that call. -/
theorem planAIMessageCall_eq_nil (call : Node) (h : aimDeclineCond call = true) :
    planAIMessageCall call = [] := by
  unfold aimDeclineCond at h
  unfold planAIMessageCall
  rcases hargs : call.field "arguments" with _ | argList
  · simp
  · simp only [hargs] at h ⊢
    rcases hex : findExampleArg argList with _ | exampleArg
    · simp
    · simp only [hex] at h ⊢
      rcases hid : exampleArg.findP
          (fun n => n.kind == "identifier" && n.text == chars "example") with _ | idn
      · simp
      · simp only [hid] at h ⊢
        rcases hval : getKeywordArgumentValue exampleArg with _ | valN
        · simp
        · simp only [hval] at h ⊢
          rcases hakw : findAdditionalKwargsArg argList with _ | akw
          · simp only [hakw] at h
            exact absurd h (by simp)
          · simp only [hakw] at h ⊢
            rcases hakv : getKeywordArgumentValue akw with _ | akv
            · simp
            · simp only [hakv] at h ⊢
              obtain ⟨hd, hs⟩ := Bool.and_eq_true_iff.mp h
              simp [hd, hs]

/-- C4: for every buffer in which each `AIMessage(...)` call with an
`example=` site has an `additional_kwargs=` dictionary literal that already
contains the `"example"` key, the aimessage transform declines every site —
no edit is emitted anywhere and the unchanged sentinel (`none`) is returned,
not the original text and not an error. -/
theorem c4_merge_no_overwrite (rootNode : Node)
    (h : ∀ c ∈ aimCalls rootNode, aimDeclineCond c = true) :
    transformAIMessage rootNode = none := by
  have hnil : (aimCalls rootNode).flatMap planAIMessageCall = [] :=
    flatMap_eq_nil_of_forall _ _
      (fun c hc => planAIMessageCall_eq_nil c (h c hc))
  simp [transformAIMessage, hnil]

/-- C4 witness: the concrete buffer
`AIMessage(content="hi", example=True, additional_kwargs=\x7b"example": 1\x7d)`
satisfies the decline condition at its one call, and the transform returns
the unchanged sentinel on it. -/
theorem c4_merge_no_overwrite_witness :
    transformAIMessage c4Root = none :=
  c4_merge_no_overwrite c4Root (by decide)

/-! ## C5: merge prepends and preserves existing entries -/

/-- Dropping a prefix all of whose elements satisfy the predicate. -/
theorem dropWhile_append_all (p : Char → Bool) (l1 l2 : List Char)
    (h : ∀ c ∈ l1, p c = true) :
    (l1 ++ l2).dropWhile p = l2.dropWhile p := by
  induction l1 with
  | nil => rfl
  | cons a t ih =>
    rw [List.cons_append, List.dropWhile_cons, if_pos (h a (by simp))]
    exact ih (fun c hc => h c (by simp [hc]))

/-- Trimming whitespace around a block whose first and last characters are
not whitespace recovers exactly the block. -/
theorem trimBoth_sandwich (ws1 core ws2 : List Char)
    (h1 : ∀ c ∈ ws1, isWsChar c = true) (h2 : ∀ c ∈ ws2, isWsChar c = true)
    (hne : core ≠ [])
    (hhead : ∀ c, core.head? = some c → isWsChar c = false)
    (hlast : ∀ c, core.getLast? = some c → isWsChar c = false) :
    trimBoth (ws1 ++ core ++ ws2) = core := by
  obtain ⟨c, rest, rfl⟩ := List.exists_cons_of_ne_nil hne
  unfold trimBoth
  rw [List.append_assoc, dropWhile_append_all isWsChar ws1 _ h1]
  have hc : isWsChar c = false := hhead c rfl
  rw [show ((c :: rest) ++ ws2).dropWhile isWsChar = (c :: rest) ++ ws2 by
    rw [List.cons_append, List.dropWhile_cons, if_neg (by simp [hc])]]
  rw [List.reverse_append,
    dropWhile_append_all isWsChar ws2.reverse _
      (fun x hx => h2 x (List.mem_reverse.mp hx))]
  obtain ⟨d, rest2, hrev⟩ : ∃ d rest2, (c :: rest).reverse = d :: rest2 :=
    List.exists_cons_of_ne_nil (by simp)
  have hd : isWsChar d = false := by
    apply hlast
    rw [← List.head?_reverse, hrev]
    rfl
  rw [hrev, List.dropWhile_cons, if_neg (by simp [hd]), ← hrev,
    List.reverse_reverse]

/-- C5: merging the new `"example"` entry into a mapping literal `{inner}`
that does not yet contain the key: when the inner content is all whitespace
(the mapping is empty) the replacement is the single-entry literal, and when
the inner content is a non-empty block `core` (surrounded by optional
whitespace) the new entry is prepended and `core` — the original entries in
their original order and formatting — appears verbatim after it. -/
theorem c5_merge_prepend :
    (∀ inner v, trimBoth inner = [] →
       mergeDictText (chars "\x7b" ++ inner ++ chars "\x7d") v =
         chars "\x7b\"example\": " ++ v ++ chars "\x7d") ∧
    (∀ ws1 core ws2 v,
       (∀ c ∈ ws1, isWsChar c = true) → (∀ c ∈ ws2, isWsChar c = true) →
       core ≠ [] →
       (∀ c, core.head? = some c → isWsChar c = false) →
       (∀ c, core.getLast? = some c → isWsChar c = false) →
       mergeDictText (chars "\x7b" ++ (ws1 ++ core ++ ws2) ++ chars "\x7d") v =
         chars "\x7b\"example\": " ++ v ++ chars ", " ++ core ++ chars "\x7d") := by
  have hstrip : ∀ inner : List Char,
      ((chars "\x7b" ++ inner ++ chars "\x7d").drop 1).dropLast = inner := by
    intro inner
    show ((['\x7b'] ++ (inner ++ ['\x7d'])).drop 1).dropLast = inner
    rw [List.singleton_append, List.drop_succ_cons, List.drop_zero,
      List.dropLast_concat]
  constructor
  · intro inner v htrim
    unfold mergeDictText
    rw [hstrip, htrim]
    simp
  · intro ws1 core ws2 v h1 h2 hne hhead hlast
    unfold mergeDictText
    rw [hstrip, trimBoth_sandwich ws1 core ws2 h1 h2 hne hhead hlast]
    simp [hne]

/-- C5 witness: concrete instances of both branches — merging into
`{  }` (whitespace-only mapping) yields the single-entry literal, and merging
into `{ "foo": 1 }` prepends the new entry and keeps `"foo": 1` verbatim. -/
theorem c5_merge_prepend_witness :
    mergeDictText (chars "\x7b  \x7d") (chars "True") =
      chars "\x7b\"example\": True\x7d" ∧
    mergeDictText (chars "\x7b \"foo\": 1 \x7d") (chars "True") =
      chars "\x7b\"example\": True, \"foo\": 1\x7d" := by
  constructor
  · have h := c5_merge_prepend.1 (chars "  ") (chars "True") (by decide)
    exact h
  · have h := c5_merge_prepend.2 (chars " ") (chars "\"foo\": 1") (chars " ")
      (chars "True") (by decide) (by decide) (by decide) (by decide) (by decide)
    exact h

/-! ## C6: second pass finds no further matches -/

/-- A skippable response-format site plans no edit. -/
theorem planRF_eq_none (call : Node) (h : rfSiteSkippable call = true) :
    planRF call = none := by
  unfold rfSiteSkippable at h
  unfold planRF
  rcases hv : rfSiteValue call with _ | v
  · rfl
  · simp only [hv] at h
    rcases Bool.or_eq_true_iff.mp h with ht | hw
    · simp [ht]
    · by_cases ht : v.kind == "tuple" <;> simp [ht, hw]

/-- A skipped import plans no langchain-classic edit. -/
theorem planLC_eq_none (importNode : Node) (h : lcImportSkipped importNode = true) :
    planLC importNode = none := by
  unfold lcImportSkipped at h
  unfold planLC
  rcases Bool.or_eq_true_iff.mp h with hm | hn
  · simp [hm]
  · by_cases hm : isAlreadyMigrated importNode
    · simp [hm]
    · simp only [Bool.not_eq_true'] at hn
      simp [hm, hn]

/-- C6: a second application of the rules finds no further matches.  On any
buffer whose `create_agent` response-format sites are already wrapped in
`ToolStrategy`/`ProviderStrategy` (or tuples) — the shape a first
response-format pass leaves behind — the response-format transform returns
the unchanged sentinel; and on any buffer whose from-imports are already
`langchain_classic` imports or are not hub/legacy imports at all — the shape
a first langchain-classic pass leaves behind — the langchain-classic
transform returns the unchanged sentinel.  Applying either rule twice thus
equals applying it once. -/
theorem c6_second_pass_unchanged :
    (∀ rootNode, (∀ c ∈ rfCalls rootNode, rfSiteSkippable c = true) →
       transformRF rootNode = none) ∧
    (∀ rootNode, (∀ s ∈ lcImports rootNode, lcImportSkipped s = true) →
       transformLC rootNode = none) := by
  constructor
  · intro rootNode h
    have hnil : rfWrapEdits rootNode = [] := by
      unfold rfWrapEdits
      exact List.filterMap_eq_nil_iff.mpr (fun c hc => planRF_eq_none c (h c hc))
    simp [transformRF, hnil]
  · intro rootNode h
    have hnil : (lcImports rootNode).filterMap planLC = [] :=
      List.filterMap_eq_nil_iff.mpr (fun s hs => planLC_eq_none s (h s hs))
    simp [transformLC, hnil]

/-- C6 witness: concrete post-pass buffers —
`agent = create_agent(response_format=ToolStrategy(Out))` and
`from langchain_classic.retrievers import X` — on which the second pass
returns the unchanged sentinel. -/
theorem c6_second_pass_unchanged_witness :
    transformRF c6RFRoot = none ∧ transformLC c6LCRoot = none :=
  ⟨c6_second_pass_unchanged.1 c6RFRoot (by decide),
   c6_second_pass_unchanged.2 c6LCRoot (by decide)⟩

/-! ## C7: an ambiguous site is skipped locally -/

/-- An ambiguous call (both `prompt=` and `system_prompt=`) plans no edit. -/
theorem planP2SP_none_of_ambiguous (defRejects : Node → Bool) (call : Node)
    (h : p2spAmbiguous call = true) : planP2SP defRejects call = none := by
  unfold p2spAmbiguous at h
  obtain ⟨hpa, hsys⟩ := Bool.and_eq_true_iff.mp h
  have hsite : p2spSiteName defRejects call = none := by
    unfold p2spSiteName
    rcases hfn : call.field "function" with _ | fn
    · rfl
    · by_cases hr : defRejects fn
      · simp [hr]
      · rcases hp : p2spPromptArg call with _ | pa
        · simp [hr]
        · simp [hr, hsys]
  simp [planP2SP, hsite]

/-- A tuple-valued response-format site plans no edit. -/
theorem planRF_none_of_tuple (call : Node) (h : rfTupleSite call = true) :
    planRF call = none := by
  unfold rfTupleSite at h
  unfold planRF
  rcases hv : rfSiteValue call with _ | v
  · rfl
  · simp only [hv] at h
    simp [h]

/-- C7: one ambiguous match never aborts the file.  When the visited calls
split as `l1 ++ c :: l2` with `c` ambiguous (both keyword names present for
prompt-to-system-prompt; a tuple-shaped `response_format` value for
response-format-tool-strategy), the transform's edit list is exactly the
edits of the other calls, and when those are non-empty the transform still
commits them rather than aborting. -/
theorem c7_ambiguous_skip_is_local :
    (∀ (defRejects : Node → Bool) rootNode l1 c l2,
       p2spCalls rootNode = l1 ++ c :: l2 → p2spAmbiguous c = true →
       p2spEdits defRejects rootNode =
         l1.filterMap (planP2SP defRejects) ++ l2.filterMap (planP2SP defRejects) ∧
       (l1.filterMap (planP2SP defRejects) ++ l2.filterMap (planP2SP defRejects) ≠ [] →
         transformP2SP defRejects rootNode =
           some (commitEdits rootNode.text
             (l1.filterMap (planP2SP defRejects)
               ++ l2.filterMap (planP2SP defRejects))))) ∧
    (∀ rootNode l1 c l2,
       rfCalls rootNode = l1 ++ c :: l2 → rfTupleSite c = true →
       rfWrapEdits rootNode = l1.filterMap planRF ++ l2.filterMap planRF) := by
  constructor
  · intro defRejects rootNode l1 c l2 hsplit hamb
    have hnone := planP2SP_none_of_ambiguous defRejects c hamb
    have hedits : p2spEdits defRejects rootNode =
        l1.filterMap (planP2SP defRejects) ++ l2.filterMap (planP2SP defRejects) := by
      unfold p2spEdits
      rw [hsplit, List.filterMap_append, List.filterMap_cons, hnone]
    refine ⟨hedits, fun hne => ?_⟩
    unfold transformP2SP
    simp only [hedits]
    rw [if_neg (by simpa [List.isEmpty_iff] using hne)]
  · intro rootNode l1 c l2 hsplit htuple
    have hnone := planRF_none_of_tuple c htuple
    unfold rfWrapEdits
    rw [hsplit, List.filterMap_append, List.filterMap_cons, hnone]

/-- C7 witness: on `create_agent(prompt=a, system_prompt=b)` followed by
`create_agent(prompt=c)` only the second call is rewritten, and on
`create_agent(response_format=(p, s))` followed by
`create_agent(response_format=Out)` only the second call is wrapped. -/
theorem c7_ambiguous_skip_is_local_witness :
    transformP2SP (fun _ => false) c7P2SPRoot =
      some (commitEdits c7P2SPRoot.text
        ([] ++ [c7GoodCall].filterMap (planP2SP (fun _ => false)))) ∧
    rfWrapEdits c7RFRoot = [] ++ [c7WrapCall].filterMap planRF := by
  constructor
  · have h := (c7_ambiguous_skip_is_local.1 (fun _ => false) c7P2SPRoot
      [] c7AmbCall [c7GoodCall] rfl (by decide)).2 (by decide)
    exact h
  · have h := c7_ambiguous_skip_is_local.2 c7RFRoot
      [] c7TupleCall [c7WrapCall] rfl (by decide)
    exact h

/-! ## C8: no match yields the unchanged sentinel -/

/-- C8: when no rule produces any edit — the detectors find nothing or every
match is disqualified, so the planned edit list is empty — the response-format
and text-method transforms return the unchanged sentinel `none` (not the
original text, not an error), distinguishing "nothing to do" from a rewrite. -/
theorem c8_no_match_unchanged_sentinel :
    (∀ rootNode, rfWrapEdits rootNode = [] → transformRF rootNode = none) ∧
    (∀ rootNode, tmpEdits rootNode = [] → transformTMP rootNode = none) := by
  constructor
  · intro rootNode h
    simp [transformRF, h]
  · intro rootNode h
    simp [transformTMP, h]

/-- C8 witness: on the buffer `x = 1` neither rule plans any edit and both
transforms return the unchanged sentinel. -/
theorem c8_no_match_unchanged_sentinel_witness :
    transformRF c8Root = none ∧ transformTMP c8Root = none :=
  ⟨c8_no_match_unchanged_sentinel.1 c8Root (by decide),
   c8_no_match_unchanged_sentinel.2 c8Root (by decide)⟩

/-! ## C9: the rename edit covers only the keyword-name node -/

/-- C9: every edit the prompt-to-system-prompt transform emits replaces
exactly the span of one matched keyword-name node by `system_prompt`; for a
buffer with a single matched call, the committed output is literally the
bytes before the name node, then `system_prompt`, then the bytes after the
name node — the value expression and all sibling arguments are copied
through unchanged. -/
theorem c9_rename_edit_frame :
    (∀ (defRejects : Node → Bool) rootNode e,
       e ∈ p2spEdits defRejects rootNode →
       ∃ c ∈ p2spCalls rootNode, ∃ nameNode,
         p2spSiteName defRejects c = some nameNode ∧
         e = { startPos := nameNode.span.start, endPos := nameNode.span.stop,
               insertedText := chars "system_prompt" }) ∧
    (∀ (defRejects : Node → Bool) rootNode c nameNode,
       p2spCalls rootNode = [c] →
       p2spSiteName defRejects c = some nameNode →
       transformP2SP defRejects rootNode =
         some (rootNode.text.take nameNode.span.start ++ chars "system_prompt"
                ++ rootNode.text.drop nameNode.span.stop)) := by
  constructor
  · intro defRejects rootNode e he
    unfold p2spEdits at he
    obtain ⟨c, hc, hpc⟩ := List.mem_filterMap.mp he
    unfold planP2SP at hpc
    obtain ⟨nameNode, hnn, heq⟩ := Option.map_eq_some'.mp hpc
    exact ⟨c, hc, nameNode, hnn, heq.symm⟩
  · intro defRejects rootNode c nameNode hcalls hsite
    have hedits : p2spEdits defRejects rootNode =
        [{ startPos := nameNode.span.start, endPos := nameNode.span.stop,
           insertedText := chars "system_prompt" }] := by
      unfold p2spEdits
      rw [hcalls]
      simp [planP2SP, hsite]
    unfold transformP2SP
    simp only [hedits, List.isEmpty_cons, Bool.false_eq_true, if_false]
    rw [commitEdits_single]

/-- C9 witness: on `create_agent(prompt=x)` the transform produces
`create_agent(system_prompt=x)` — only the keyword name changed. -/
theorem c9_rename_edit_frame_witness :
    transformP2SP (fun _ => false) c9Root =
      some (chars "create_agent(system_prompt=x)\n") := by
  have h := c9_rename_edit_frame.2 (fun _ => false) c9Root c9Call c9NameNode
    rfl rfl
  rw [h]
  decide

/-! ## C10: import insertion policy -/

/-- Lower bounds of the running-maximum fold over import end offsets. -/
theorem foldl_max_stop_le (l : List Node) (a : Nat) :
    a ≤ l.foldl (fun acc n => max acc n.span.stop) a ∧
    ∀ i ∈ l, i.span.stop ≤ l.foldl (fun acc n => max acc n.span.stop) a := by
  induction l generalizing a with
  | nil => simp
  | cons x xs ih =>
    simp only [List.foldl_cons]
    obtain ⟨iha, ihm⟩ := ih (max a x.span.stop)
    refine ⟨le_trans (le_max_left _ _) iha, ?_⟩
    intro i hi
    rcases List.mem_cons.mp hi with rfl | hi'
    · exact le_trans (le_max_right _ _) iha
    · exact ihm i hi'

/-- The running-maximum fold returns its seed or some member's end offset. -/
theorem foldl_max_stop_cases (l : List Node) (a : Nat) :
    l.foldl (fun acc n => max acc n.span.stop) a = a ∨
      ∃ i ∈ l, l.foldl (fun acc n => max acc n.span.stop) a = i.span.stop := by
  induction l generalizing a with
  | nil => left; rfl
  | cons x xs ih =>
    simp only [List.foldl_cons]
    rcases ih (max a x.span.stop) with h | ⟨i, hi, hieq⟩
    · rcases max_choice a x.span.stop with hm | hm
      · left; rw [h, hm]
      · right; exact ⟨x, by simp, by rw [h, hm]⟩
    · right; exact ⟨i, by simp [hi], hieq⟩

/-- Lemma: `hasSubstring` agrees with list-infix containment. -/
theorem hasSubstring_iff (hay needle : List Char) :
    hasSubstring hay needle = true ↔ needle <:+: hay := by
  induction hay with
  | nil =>
    rw [hasSubstring]
    by_cases hn : needle = []
    · subst hn; simp
    · have hp : needle.isPrefixOf [] = false := by
        cases needle with
        | nil => simp at hn
        | cons a t => rfl
      simp [hp, hn]
  | cons a t ih =>
    rw [hasSubstring]
    by_cases hp : needle.isPrefixOf (a :: t) = true
    · rw [if_pos hp]
      simp only [true_iff]
      exact ( List.isPrefixOf_iff_prefix.mp hp).isInfix
    · rw [if_neg hp, ih, List.infix_cons_iff]
      constructor
      · exact fun h => Or.inr h
      · rintro (h | h)
        · exact absurd ( List.isPrefixOf_iff_prefix.mpr h) hp
        · exact h

/-- C10: the ToolStrategy import insertion.  The committed edit list is the
wrap edits plus exactly one import edit when at least one wrap edit exists
and no from-import's text contains both the module path and `ToolStrategy`,
and just the wrap edits otherwise (so the line is inserted at most once per
file, and never when an import bringing `ToolStrategy` in from
`langchain.agents.structured_output` exists, since such an import's text
contains both substrings).  With no import statements the insertion is the
zero-width edit at offset 0 with two trailing newlines; otherwise it is the
zero-width edit at the maximal import end offset — the end of the very last
such statement — preceded by one newline. -/
theorem c10_import_insertion (rootNode : Node) :
    ((rfWrapEdits rootNode ≠ [] ∧ hasToolStrategyImport rootNode = false) →
       rfAllEdits rootNode = rfWrapEdits rootNode ++ [rfImportEdit rootNode]) ∧
    ((rfWrapEdits rootNode = [] ∨ hasToolStrategyImport rootNode = true) →
       rfAllEdits rootNode = rfWrapEdits rootNode) ∧
    (rfImports rootNode = [] →
       rfImportEdit rootNode =
         { startPos := 0, endPos := 0,
           insertedText := toolStrategyImportLine ++ chars "\n\n" }) ∧
    (∀ i ∈ rfImports rootNode, i.span.stop ≤ findImportInsertPosition rootNode) ∧
    (findImportInsertPosition rootNode ≠ 0 →
       (∃ i ∈ rfImports rootNode,
          i.span.stop = findImportInsertPosition rootNode) ∧
       rfImportEdit rootNode =
         { startPos := findImportInsertPosition rootNode,
           endPos := findImportInsertPosition rootNode,
           insertedText := chars "\n" ++ toolStrategyImportLine }) ∧
    (∀ stmt ∈ rfFromImports rootNode,
       (chars "langchain.agents.structured_output") <:+: stmt.text →
       (chars "ToolStrategy") <:+: stmt.text →
       hasToolStrategyImport rootNode = true) := by
  refine ⟨?_, ?_, ?_, ?_, ?_, ?_⟩
  · rintro ⟨h1, h2⟩
    unfold rfAllEdits
    rw [if_pos]
    simp [List.isEmpty_iff, h1, h2]
  · rintro (h | h)
    · unfold rfAllEdits
      rw [if_neg]
      simp [List.isEmpty_iff, h]
    · unfold rfAllEdits
      rw [if_neg]
      simp [h]
  · intro h
    unfold rfImportEdit findImportInsertPosition
    simp [h]
  · intro i hi
    unfold findImportInsertPosition
    rw [if_neg (by simp [List.isEmpty_iff, List.ne_nil_of_mem hi])]
    exact (foldl_max_stop_le (rfImports rootNode) 0).2 i hi
  · intro hne
    have himps : ¬ (rfImports rootNode).isEmpty = true := by
      intro hempty
      apply hne
      unfold findImportInsertPosition
      rw [if_pos hempty]
    constructor
    · have := foldl_max_stop_cases (rfImports rootNode) 0
      unfold findImportInsertPosition at hne ⊢
      rw [if_neg himps] at hne ⊢
      rcases this with h | h
      · exact absurd h hne
      · obtain ⟨i, hi, hieq⟩ := h
        exact ⟨i, hi, hieq.symm⟩
    · unfold rfImportEdit
      rw [if_neg (by simpa using hne)]
  · intro stmt hstmt hinf1 hinf2
    unfold hasToolStrategyImport
    rw [List.any_eq_true]
    exact ⟨stmt, hstmt,
      Bool.and_eq_true_iff.mpr
        ⟨(hasSubstring_iff _ _).mpr hinf1, (hasSubstring_iff _ _).mpr hinf2⟩⟩

/-- C10 witness: on `import os` + `agent = create_agent(response_format=Out)`
the transform appends exactly one import edit, placed right after the
`import os` statement's end offset 9 with a leading newline; and the buffer
`from langchain.agents.structured_output import ToolStrategy` is detected as
already importing ToolStrategy. -/
theorem c10_import_insertion_witness :
    rfAllEdits c10Root = rfWrapEdits c10Root ++ [rfImportEdit c10Root] ∧
    rfImportEdit c10Root =
      { startPos := 9, endPos := 9,
        insertedText := chars "\n" ++ toolStrategyImportLine } ∧
    (∃ i ∈ rfImports c10Root, i.span.stop = findImportInsertPosition c10Root) ∧
    hasToolStrategyImport c10RootB = true := by
  refine ⟨(c10_import_insertion c10Root).1 ⟨by decide, by decide⟩, ?_, ?_, ?_⟩
  · exact ((c10_import_insertion c10Root).2.2.2.2.1 (by decide)).2
  · exact ((c10_import_insertion c10Root).2.2.2.2.1 (by decide)).1
  · exact (c10_import_insertion c10RootB).2.2.2.2.2 c10BImportStmt
      (List.mem_cons_self _ _) (by decide) (by decide)

/-! ## C3: separator cleanup for single-element removal -/

/-- C3 counterexample: on `from m import a, ToolNode, b` the removed element
`ToolNode` occupies `[17, 25)` and has a following comma at offset 25, yet
the planned removal span is `[15, 25)` — it extends backwards through the
preceding comma instead of forwards through the following one, contradicting
the claim that an element with a following comma is removed together with
that following comma up to the next element's start.  (The committed result
is still the valid shorter list.) -/
theorem c3_counterexample :
    createImportRemovalEdit c3Root 0 =
      some { startPos := 15, endPos := 25, insertedText := [] } ∧
    c3Src.getD 25 ' ' = ',' ∧
    (c3ImportStmt.fieldChildren "name").map Node.span =
      [⟨14, 15⟩, ⟨17, 25⟩, ⟨27, 28⟩] ∧
    commitEdits c3Src [{ startPos := 15, endPos := 25, insertedText := [] }] =
      chars "from m import a, b\n" :=
  ⟨rfl, rfl, rfl, rfl⟩

/-- Unfolding of `joinComma` at a cons with non-empty tail. -/
theorem joinComma_cons (e : List Char) (rest : List (List Char))
    (h : rest ≠ []) :
    joinComma (e :: rest) = e ++ chars ", " ++ joinComma rest := by
  cases rest with
  | nil => exact absurd rfl h
  | cons f r => rfl

/-- A non-empty list after erasing one of at least two indices stays
non-empty. -/
theorem eraseIdx_ne_nil (l : List (List Char)) (i : Nat)
    (h2 : 2 ≤ l.length) (hi : i < l.length) : l.eraseIdx i ≠ [] := by
  have hlen : (l.eraseIdx i).length = l.length - 1 :=
    List.length_eraseIdx_of_lt hi
  intro hnil
  rw [hnil] at hlen
  simp at hlen
  omega

/-- Deleting the byte range `[pre.length, pre.length + mid.length)` from
`pre ++ mid ++ post` leaves `pre ++ post`. -/
theorem take_drop_delete (full pre mid post out : List Char) (s t : Nat)
    (hfull : full = pre ++ (mid ++ post)) (hs : s = pre.length)
    (ht : t = pre.length + mid.length) (hout : out = pre ++ post) :
    full.take s ++ full.drop t = out := by
  subst hfull hs ht hout
  have h1 : (pre ++ (mid ++ post)).take pre.length = pre :=
    List.take_left pre (mid ++ post)
  have h2 : (pre ++ (mid ++ post)).drop (pre.length + mid.length) = post := by
    rw [← List.length_append pre mid, ← List.append_assoc]
    exact List.drop_left (pre ++ mid) post
  rw [h1, h2]

/-- Length of the rendered separator. -/
theorem sepLength : (chars ", ").length = 2 := rfl

/-- Lemma: `relPos` at index 0. -/
theorem relPos_zero (es : List (List Char)) : relPos es 0 = 0 := by
  cases es <;> rfl

/-- Lemma: `relPos` at a successor index on a cons. -/
theorem relPos_succ (e : List Char) (rest : List (List Char)) (i : Nat) :
    relPos (e :: rest) (i + 1) = e.length + 2 + relPos rest i := rfl

/-- Deleting element `i` together with its following separator — the byte
range from the start of element `i` to the start of element `i+1` — from a
rendered list turns it into the rendering of the list without element `i`. -/
theorem delete_forward : ∀ (es : List (List Char)) (i : Nat)
    (pfx sfx : List Char) (s t : Nat),
    i + 1 < es.length → s = pfx.length + relPos es i →
    t = pfx.length + relPos es (i + 1) →
    (pfx ++ joinComma es ++ sfx).take s ++ (pfx ++ joinComma es ++ sfx).drop t
      = pfx ++ joinComma (es.eraseIdx i) ++ sfx
  | [], _, _, _, _, _, h, _, _ => absurd h (by simp)
  | [e], 0, _, _, _, _, h, _, _ => absurd h (by simp)
  | e :: f :: rest, 0, pfx, sfx, s, t, h, hs, ht => by
    apply take_drop_delete _ pfx (e ++ chars ", ")
      (joinComma (f :: rest) ++ sfx) _
    · rw [joinComma_cons e (f :: rest) (by simp)]
      simp [List.append_assoc]
    · rw [hs, relPos_zero]
      simp
    · rw [ht, relPos_succ, relPos_zero]
      simp [sepLength]
    · simp [List.eraseIdx, List.append_assoc]
  | e :: rest, i + 1, pfx, sfx, s, t, h, hs, ht => by
    have hlt : i + 1 < rest.length := by
      simpa using h
    have hrest : rest ≠ [] := by
      intro hnil
      rw [hnil] at hlt
      simp at hlt
    have hrec := delete_forward rest i (pfx ++ e ++ chars ", ") sfx
      ((pfx ++ e ++ chars ", ").length + relPos rest i)
      ((pfx ++ e ++ chars ", ").length + relPos rest (i + 1))
      hlt rfl rfl
    rw [joinComma_cons e rest hrest]
    have herase : (e :: rest).eraseIdx (i + 1) = e :: rest.eraseIdx i := by
      simp [List.eraseIdx]
    rw [herase, joinComma_cons e (rest.eraseIdx i)
      (eraseIdx_ne_nil rest i (by omega) (by omega))]
    have hflat :
        pfx ++ (e ++ chars ", " ++ joinComma rest) ++ sfx =
          (pfx ++ e ++ chars ", ") ++ joinComma rest ++ sfx := by
      simp [List.append_assoc]
    rw [hflat]
    have hs' : s = (pfx ++ e ++ chars ", ").length + relPos rest i := by
      rw [hs, relPos_succ]
      simp [List.length_append, sepLength]
      all_goals omega
    have ht' : t = (pfx ++ e ++ chars ", ").length + relPos rest (i + 1) := by
      rw [ht, relPos_succ]
      simp [List.length_append, sepLength]
      all_goals omega
    rw [hs', ht', hrec]
    simp [List.append_assoc]

/-- Deleting element `j+1` together with its preceding separator — the byte
range from the end of element `j` to the end of element `j+1` — from a
rendered list turns it into the rendering of the list without element
`j+1`. -/
theorem delete_backward : ∀ (es : List (List Char)) (j : Nat)
    (pfx sfx : List Char) (s t : Nat),
    j + 1 < es.length →
    s = pfx.length + relPos es j + (es.getD j []).length →
    t = pfx.length + relPos es (j + 1) + (es.getD (j + 1) []).length →
    (pfx ++ joinComma es ++ sfx).take s ++ (pfx ++ joinComma es ++ sfx).drop t
      = pfx ++ joinComma (es.eraseIdx (j + 1)) ++ sfx
  | [], _, _, _, _, _, h, _, _ => absurd h (by simp)
  | [e], 0, _, _, _, _, h, _, _ => absurd h (by simp)
  | e :: f :: rest, 0, pfx, sfx, s, t, h, hs, ht => by
    cases rest with
    | nil =>
      apply take_drop_delete _ (pfx ++ e) (chars ", " ++ f) sfx _
      · simp [joinComma, List.append_assoc]
      · rw [hs, relPos_zero]
        simp
      · rw [ht, relPos_succ, relPos_zero]
        simp [sepLength, List.length_append]
        all_goals omega
      · simp [List.eraseIdx, joinComma]
    | cons g rest' =>
      apply take_drop_delete _ (pfx ++ e) (chars ", " ++ f)
        (chars ", " ++ joinComma (g :: rest') ++ sfx) _
      · rw [joinComma_cons e (f :: g :: rest') (by simp),
          joinComma_cons f (g :: rest') (by simp)]
        simp [List.append_assoc]
      · rw [hs, relPos_zero]
        simp
      · rw [ht, relPos_succ, relPos_zero]
        simp [sepLength, List.length_append]
        all_goals omega
      · rw [show (e :: f :: g :: rest').eraseIdx 1 = e :: g :: rest' from rfl,
          joinComma_cons e (g :: rest') (by simp)]
        simp [List.append_assoc]
  | e :: rest, j + 1, pfx, sfx, s, t, h, hs, ht => by
    have hlt : j + 1 < rest.length := by
      simpa using h
    have hrest : rest ≠ [] := by
      intro hnil
      rw [hnil] at hlt
      simp at hlt
    have hrec := delete_backward rest j (pfx ++ e ++ chars ", ") sfx
      ((pfx ++ e ++ chars ", ").length + relPos rest j + (rest.getD j []).length)
      ((pfx ++ e ++ chars ", ").length + relPos rest (j + 1)
        + (rest.getD (j + 1) []).length)
      hlt rfl rfl
    rw [joinComma_cons e rest hrest]
    have herase : (e :: rest).eraseIdx (j + 2) = e :: rest.eraseIdx (j + 1) := by
      simp [List.eraseIdx]
    rw [herase, joinComma_cons e (rest.eraseIdx (j + 1))
      (eraseIdx_ne_nil rest (j + 1) (by omega) (by omega))]
    have hflat :
        pfx ++ (e ++ chars ", " ++ joinComma rest) ++ sfx =
          (pfx ++ e ++ chars ", ") ++ joinComma rest ++ sfx := by
      simp [List.append_assoc]
    rw [hflat]
    have hs' : s = (pfx ++ e ++ chars ", ").length + relPos rest j
        + (rest.getD j []).length := by
      rw [hs, relPos_succ]
      simp [List.length_append, sepLength, List.getD_cons_succ]
      all_goals omega
    have ht' : t = (pfx ++ e ++ chars ", ").length + relPos rest (j + 1)
        + (rest.getD (j + 1) []).length := by
      rw [ht, relPos_succ]
      simp [List.length_append, sepLength, List.getD_cons_succ]
      all_goals omega
    rw [hs', ht', hrec]
    simp [List.append_assoc]

/-- Round trip between plain lists and `Children`. -/
theorem Children.toList_ofList (l : List (Option String × Node)) :
    (Children.ofList l).toList = l := by
  induction l with
  | nil => rfl
  | cons a rest ih =>
    cases a
    simp [Children.ofList, Children.toList, ih]

/-- Lemma: `findIdx` on a list split around the first element satisfying the
predicate. -/
theorem findIdx_append_cons (p : Node → Bool) (L : List Node) (a : Node)
    (R : List Node) (hL : ∀ x ∈ L, p x = false) (ha : p a = true) :
    (L ++ a :: R).findIdx p = L.length := by
  induction L with
  | nil => simp [List.findIdx_cons, ha]
  | cons x xs ih =>
    rw [List.cons_append, List.findIdx_cons, hL x (by simp)]
    simp only [cond_false, List.length_cons]
    rw [ih (fun y hy => hL y (by simp [hy]))]

/-- Lookup at the marked position of a split list. -/
theorem getElem?_append_cons_self {α : Type} (L : List α) (a : α) (R : List α) :
    (L ++ a :: R)[L.length]? = some a := by
  induction L with
  | nil => simp
  | cons x xs ih => simpa using ih

/-- Lookup past the marked position of a split list. -/
theorem getElem?_append_cons_after {α : Type} (L : List α) (a : α) (R : List α)
    (k : Nat) : (L ++ a :: R)[L.length + (k + 1)]? = R[k]? := by
  induction L with
  | nil => simp
  | cons x xs ih =>
    rw [List.cons_append, List.length_cons,
      show xs.length + 1 + (k + 1) = (xs.length + (k + 1)) + 1 by omega,
      List.getElem?_cons_succ]
    exact ih

/-- The element node of a rendered list at index 0. -/
theorem argNodeAt_zero (b : Nat) (e : List Char) (rest : List (List Char)) :
    argNodeAt b (e :: rest) 0 =
      .mk "argument" ⟨b, b + e.length⟩ e true .nil := by
  simp [argNodeAt, relPos_zero]

/-- Shifting the element node across the first rendered element. -/
theorem argNodeAt_succ (b : Nat) (e : List Char) (rest : List (List Char))
    (i : Nat) :
    argNodeAt b (e :: rest) (i + 1) = argNodeAt (b + e.length + 2) rest i := by
  simp only [argNodeAt, relPos_succ, List.getD_cons_succ, Node.mk.injEq,
    Span.mk.injEq, and_true, true_and]
  exact ⟨by omega, by omega⟩

/-- The comma node of a rendered list after element 0. -/
theorem commaAt_zero (b : Nat) (e : List Char) (rest : List (List Char)) :
    commaAt b (e :: rest) 0 =
      .mk "," ⟨b + e.length, b + e.length + 1⟩ (chars ",") false .nil := by
  simp [commaAt, relPos_zero]

/-- Shifting the comma node across the first rendered element. -/
theorem commaAt_succ (b : Nat) (e : List Char) (rest : List (List Char))
    (i : Nat) :
    commaAt b (e :: rest) (i + 1) = commaAt (b + e.length + 2) rest i := by
  simp only [commaAt, relPos_succ, List.getD_cons_succ, Node.mk.injEq,
    Span.mk.injEq, and_true, true_and]
  exact ⟨by omega, by omega⟩

/-- The token list of a non-empty rendered list starts with element 0. -/
theorem argTokenPairs_head (b : Nat) (es : List (List Char)) (h : es ≠ []) :
    ∃ tl, (argTokenPairs b es).map Prod.snd = argNodeAt b es 0 :: tl := by
  match es with
  | [] => exact absurd rfl h
  | [e] => exact ⟨[], by simp [argTokenPairs, argNodeAt_zero]⟩
  | e :: f :: rest =>
    exact ⟨Node.mk "," ⟨b + e.length, b + e.length + 1⟩ (chars ",") false .nil
        :: (argTokenPairs (b + e.length + 2) (f :: rest)).map Prod.snd,
      by rw [argNodeAt_zero]; simp [argTokenPairs]⟩

/-- Structure of the rendered token list around element `i`: the tokens
split as `L ++ element i :: R` where `L` holds the `2*i` earlier tokens
(none sharing the element's identity key, the last one being the comma after
element `i-1` when `i > 0`) and `R` starts with the following comma and
element `i+1` when element `i` is not last, and is empty when it is. -/
theorem argTokenPairs_decomp : ∀ (b : Nat) (es : List (List Char)) (i : Nat),
    i < es.length →
    ∃ L R, (argTokenPairs b es).map Prod.snd = L ++ argNodeAt b es i :: R
      ∧ L.length = 2 * i
      ∧ (∀ x ∈ L, (x.idKey == (argNodeAt b es i).idKey) = false)
      ∧ (∀ j, i = j + 1 → ∃ L0, L = L0 ++ [commaAt b es j])
      ∧ (i + 1 < es.length →
          ∃ R0, R = commaAt b es i :: argNodeAt b es (i + 1) :: R0)
      ∧ (i + 1 = es.length → R = [])
  | b, [], i, h => absurd h (by simp)
  | b, [e], 0, _ => by
    refine ⟨[], [], ?_, rfl, by simp, ?_, ?_, fun _ => rfl⟩
    · simp [argTokenPairs, argNodeAt_zero]
    · intro j hj
      exact absurd hj (by omega)
    · intro hlt
      exact absurd hlt (by simp)
  | b, [e], i + 1, h => absurd h (by simp)
  | b, e :: f :: rest, 0, _ => by
    obtain ⟨tl, htl⟩ := argTokenPairs_head (b + e.length + 2) (f :: rest)
      (by simp)
    refine ⟨[], .mk "," ⟨b + e.length, b + e.length + 1⟩ (chars ",") false .nil
        :: argNodeAt (b + e.length + 2) (f :: rest) 0 :: tl, ?_, rfl,
      by simp, ?_, ?_, ?_⟩
    · rw [argNodeAt_zero]
      simp [argTokenPairs, htl]
    · intro j hj
      exact absurd hj (by omega)
    · intro _
      refine ⟨tl, ?_⟩
      rw [commaAt_zero, argNodeAt_succ]
    · intro habs
      simp at habs
  | b, e :: rest₀, i + 1, h => by
    match rest₀, h with
    | f :: rest, h =>
      have hlt : i < (f :: rest).length := by
        simpa using h
      obtain ⟨L0, R0, hdec, hlen, hkey, hcomma, hfwd, hlast⟩ :=
        argTokenPairs_decomp (b + e.length + 2) (f :: rest) i hlt
      refine ⟨Node.mk "argument" ⟨b, b + e.length⟩ e true .nil
          :: Node.mk "," ⟨b + e.length, b + e.length + 1⟩ (chars ",") false .nil
          :: L0, R0, ?_, ?_, ?_, ?_, ?_, ?_⟩
      · rw [argNodeAt_succ]
        simp [argTokenPairs, hdec]
      · simp [hlen]
        omega
      · intro x hx
        rcases List.mem_cons.mp hx with rfl | hx'
        · rw [beq_eq_false_iff_ne]
          intro heq
          have hstart : b = b + relPos (e :: f :: rest) (i + 1) := by
            simpa [Node.idKey, argNodeAt, Node.span] using congrArg Prod.fst heq
          rw [relPos_succ] at hstart
          omega
        · rcases List.mem_cons.mp hx' with rfl | hx''
          · rw [beq_eq_false_iff_ne]
            intro heq
            have hkind : "," = "argument" := by
              simpa [Node.idKey, argNodeAt, Node.kind] using
                congrArg (fun q => q.2.2) heq
            simp at hkind
          · rw [argNodeAt_succ]
            exact hkey x hx''
      · intro j hj
        match j, hj with
        | 0, _ =>
          have : i = 0 := by omega
          subst this
          obtain ⟨tl2, htl2⟩ := argTokenPairs_head (b + e.length + 2) (f :: rest)
            (by simp)
          refine ⟨[Node.mk "argument" ⟨b, b + e.length⟩ e true .nil], ?_⟩
          rw [commaAt_zero]
          have hL0 : L0 = [] := by
            have h0 := hlen
            simp at h0
            exact h0
          simp [hL0]
        | j' + 1, hj =>
          have hij : i = j' + 1 := by omega
          obtain ⟨L00, hL00⟩ := hcomma j' hij
          refine ⟨Node.mk "argument" ⟨b, b + e.length⟩ e true .nil
              :: Node.mk "," ⟨b + e.length, b + e.length + 1⟩ (chars ",") false .nil
              :: L00, ?_⟩
          rw [commaAt_succ]
          simp [hL00]
      · intro hlt2
        have : i + 1 < (f :: rest).length := by
          simpa using hlt2
        obtain ⟨R00, hR00⟩ := hfwd this
        refine ⟨R00, ?_⟩
        rw [commaAt_succ, argNodeAt_succ]
        exact hR00
      · intro heq
        apply hlast
        simpa using heq

/-- Lookup one past the marked position of a split list. -/
theorem getElem?_append_cons_one {α : Type} (L : List α) (a : α) (R : List α) :
    (L ++ a :: R)[L.length + 1]? = R[0]? := by
  simpa using getElem?_append_cons_after L a R 0

/-- Lookup two past the marked position of a split list. -/
theorem getElem?_append_cons_two {α : Type} (L : List α) (a : α) (R : List α) :
    (L ++ a :: R)[L.length + 2]? = R[1]? := by
  simpa using getElem?_append_cons_after L a R 1

/-- Children of the rendered `argument_list` node: `(` token, interleaved
element and comma tokens, `)` token. -/
theorem argListNodeOf_childNodes (es : List (List Char)) :
    (argListNodeOf es).childNodes =
      Node.mk "(" ⟨0, 1⟩ (chars "(") false .nil
        :: (argTokenPairs 1 es).map Prod.snd
        ++ [Node.mk ")" ⟨1 + (joinComma es).length, 2 + (joinComma es).length⟩
              (chars ")") false .nil] := by
  show (Children.ofList _).toList.map Prod.snd = _
  rw [Children.toList_ofList]
  simp

/-- Lemma: `removeArgumentWithComma` when the argument has a following comma child
and a following element: the removed span runs from the argument's start
through the comma and the whitespace up to the next element's start. -/
theorem removeArgumentWithComma_split_forward (arg argList : Node)
    (L R : List Node) (cNode nNode : Node)
    (hchild : argList.childNodes = L ++ arg :: cNode :: nNode :: R)
    (hkey : ∀ x ∈ L, (x.idKey == arg.idKey) = false)
    (hc : cNode.text = chars ",") :
    removeArgumentWithComma arg argList =
      { startPos := arg.span.start, endPos := nNode.span.start,
        insertedText := [] } := by
  unfold removeArgumentWithComma
  simp only [hchild]
  rw [findIdx_append_cons _ L arg _ hkey (by simp),
    getElem?_append_cons_one, getElem?_append_cons_two]
  simp [hc]

/-- Lemma: `removeArgumentWithComma` when the argument has no following comma (the
next child exists but is not a comma) and a preceding comma child: the
removed span runs from the preceding comma's start to the argument's end. -/
theorem removeArgumentWithComma_split_backward (arg argList : Node)
    (L R : List Node) (pNode rNode : Node)
    (hchild : argList.childNodes = L ++ pNode :: arg :: rNode :: R)
    (hkey : ∀ x ∈ L, (x.idKey == arg.idKey) = false)
    (hpk : (pNode.idKey == arg.idKey) = false)
    (hp : pNode.text = chars ",")
    (hr : (rNode.text == chars ",") = false) :
    removeArgumentWithComma arg argList =
      { startPos := pNode.span.start, endPos := arg.span.stop,
        insertedText := [] } := by
  have hchild' : argList.childNodes = (L ++ [pNode]) ++ arg :: rNode :: R := by
    rw [hchild]
    simp
  have hkey' : ∀ x ∈ L ++ [pNode], (x.idKey == arg.idKey) = false := by
    intro x hx
    rcases List.mem_append.mp hx with hx' | hx'
    · exact hkey x hx'
    · rw [List.mem_singleton.mp hx']
      exact hpk
  unfold removeArgumentWithComma
  simp only [hchild']
  rw [findIdx_append_cons _ (L ++ [pNode]) arg _ hkey' (by simp),
    getElem?_append_cons_one]
  simp only [List.getElem?_cons_zero, Option.some.injEq, hr]
  have hidx : (L ++ [pNode]).length = L.length + 1 := by simp
  unfold removeArgumentLeading
  rw [hidx]
  simp only [Nat.add_eq_zero, and_false, beq_iff_eq, if_neg (by omega : ¬ (L.length + 1 = 0))]
  have hprev : ((L ++ [pNode]) ++ arg :: rNode :: R)[L.length + 1 - 1]? = some pNode := by
    rw [show (L ++ [pNode]) ++ arg :: rNode :: R = L ++ pNode :: arg :: rNode :: R by simp,
      show L.length + 1 - 1 = L.length by omega]
    exact getElem?_append_cons_self L pNode _
  rw [hprev]
  simp [hp]

/-- Forward characterisation of `removeArgumentWithComma` on the rendered
family: removing a non-last element plans the span from the element's start
to the next element's start. -/
theorem removeArgumentWithComma_forward (es : List (List Char)) (i : Nat)
    (h : i + 1 < es.length) :
    removeArgumentWithComma (argNodeAt 1 es i) (argListNodeOf es) =
      { startPos := 1 + relPos es i, endPos := 1 + relPos es (i + 1),
        insertedText := [] } := by
  obtain ⟨L, R, hdec, hlen, hkey, hcomma, hfwd, hlast⟩ :=
    argTokenPairs_decomp 1 es i (by omega)
  obtain ⟨R0, hR0⟩ := hfwd h
  have hchild : (argListNodeOf es).childNodes =
      (Node.mk "(" ⟨0, 1⟩ (chars "(") false .nil :: L)
        ++ argNodeAt 1 es i :: commaAt 1 es i :: argNodeAt 1 es (i + 1)
        :: (R0 ++ [Node.mk ")" ⟨1 + (joinComma es).length, 2 + (joinComma es).length⟩
              (chars ")") false .nil]) := by
    rw [argListNodeOf_childNodes, hdec, hR0]
    simp
  have hkey' : ∀ x ∈ Node.mk "(" ⟨0, 1⟩ (chars "(") false .nil :: L,
      (x.idKey == (argNodeAt 1 es i).idKey) = false := by
    intro x hx
    rcases List.mem_cons.mp hx with rfl | hx'
    · rw [beq_eq_false_iff_ne]
      intro heq
      have : "(" = "argument" := by
        simpa [Node.idKey, argNodeAt, Node.kind] using
          congrArg (fun q => q.2.2) heq
      simp at this
    · exact hkey x hx'
  rw [removeArgumentWithComma_split_forward (argNodeAt 1 es i) (argListNodeOf es)
    _ _ _ _ hchild hkey' rfl]
  simp [argNodeAt, Node.span]

/-- Backward characterisation of `removeArgumentWithComma` on the rendered
family: removing the last element (index `j+1`) plans the span from the
preceding comma's start to the element's end. -/
theorem removeArgumentWithComma_backward (es : List (List Char)) (j : Nat)
    (h : j + 2 = es.length) :
    removeArgumentWithComma (argNodeAt 1 es (j + 1)) (argListNodeOf es) =
      { startPos := 1 + relPos es j + (es.getD j []).length,
        endPos := 1 + relPos es (j + 1) + (es.getD (j + 1) []).length,
        insertedText := [] } := by
  obtain ⟨L, R, hdec, hlen, hkey, hcomma, hfwd, hlast⟩ :=
    argTokenPairs_decomp 1 es (j + 1) (by omega)
  obtain ⟨L0, hL0⟩ := hcomma j rfl
  have hR : R = [] := hlast (by omega)
  have hchild : (argListNodeOf es).childNodes =
      (Node.mk "(" ⟨0, 1⟩ (chars "(") false .nil :: L0)
        ++ commaAt 1 es j :: argNodeAt 1 es (j + 1)
        :: Node.mk ")" ⟨1 + (joinComma es).length, 2 + (joinComma es).length⟩
              (chars ")") false .nil :: [] := by
    rw [argListNodeOf_childNodes, hdec, hL0, hR]
    simp
  have hkey' : ∀ x ∈ Node.mk "(" ⟨0, 1⟩ (chars "(") false .nil :: L0,
      (x.idKey == (argNodeAt 1 es (j + 1)).idKey) = false := by
    intro x hx
    rcases List.mem_cons.mp hx with rfl | hx'
    · rw [beq_eq_false_iff_ne]
      intro heq
      have : "(" = "argument" := by
        simpa [Node.idKey, argNodeAt, Node.kind] using
          congrArg (fun q => q.2.2) heq
      simp at this
    · exact hkey x (by rw [hL0]; exact List.mem_append.mpr (Or.inl hx'))
  have hpk : ((commaAt 1 es j).idKey == (argNodeAt 1 es (j + 1)).idKey) = false := by
    rw [beq_eq_false_iff_ne]
    intro heq
    have : "," = "argument" := by
      simpa [Node.idKey, commaAt, argNodeAt, Node.kind] using
        congrArg (fun q => q.2.2) heq
    simp at this
  rw [removeArgumentWithComma_split_backward (argNodeAt 1 es (j + 1))
    (argListNodeOf es) _ _ _ _ hchild hkey' hpk rfl (by rfl)]
  simp [argNodeAt, commaAt, Node.span]

/-- Committing the planned argument removal on the rendered list yields the
rendering of the list without that element, in every position. -/
theorem commit_removeArgumentWithComma (es : List (List Char)) (i : Nat)
    (h2 : 2 ≤ es.length) (hi : i < es.length) :
    commitEdits (renderArgs es)
      [removeArgumentWithComma (argNodeAt 1 es i) (argListNodeOf es)] =
      renderArgs (es.eraseIdx i) := by
  by_cases hfwd : i + 1 < es.length
  · rw [removeArgumentWithComma_forward es i hfwd, commitEdits_single]
    have hdel := delete_forward es i (chars "(") (chars ")")
      (1 + relPos es i) (1 + relPos es (i + 1)) hfwd rfl rfl
    simpa [renderArgs] using hdel
  · obtain ⟨j, rfl⟩ : ∃ j, i = j + 1 := ⟨i - 1, by omega⟩
    rw [removeArgumentWithComma_backward es j (by omega), commitEdits_single]
    have hdel := delete_backward es j (chars "(") (chars ")")
      (1 + relPos es j + (es.getD j []).length)
      (1 + relPos es (j + 1) + (es.getD (j + 1) []).length)
      (by omega) rfl rfl
    simpa [renderArgs] using hdel

/-- Comma count of a rendered join whose elements contain no commas. -/
theorem count_joinComma : ∀ (es : List (List Char)),
    (∀ e ∈ es, (',' : Char) ∉ e) →
    (joinComma es).count ',' = es.length - 1
  | [], _ => rfl
  | [e], h => by
    simp [joinComma, List.count_eq_zero.mpr (h e (by simp))]
  | e :: f :: rest, h => by
    have hsep : (chars ", ").count ',' = 1 := rfl
    rw [joinComma_cons e (f :: rest) (by simp), List.count_append,
      List.count_append, List.count_eq_zero.mpr (h e (by simp)), hsep,
      count_joinComma (f :: rest) (fun x hx => h x (by simp [hx]))]
    simp
    omega

/-- Removing one element from a rendered list of comma-free elements drops
exactly one comma. -/
theorem count_renderArgs_erase (es : List (List Char)) (i : Nat)
    (h2 : 2 ≤ es.length) (hi : i < es.length)
    (hc : ∀ e ∈ es, (',' : Char) ∉ e) :
    (renderArgs es).count ',' = (renderArgs (es.eraseIdx i)).count ',' + 1 := by
  have h1 := count_joinComma es hc
  have h1' := count_joinComma (es.eraseIdx i)
    (fun x hx => hc x (List.mem_of_mem_eraseIdx hx))
  have hlen : (es.eraseIdx i).length = es.length - 1 :=
    List.length_eraseIdx_of_lt hi
  have hp : (chars "(").count ',' = 0 := rfl
  have hq : (chars ")").count ',' = 0 := rfl
  unfold renderArgs
  rw [List.count_append, List.count_append, List.count_append,
    List.count_append, h1, h1', hp, hq, hlen]
  omega

/-- Lemma: `getD` across an append at an offset into the right part. -/
theorem getD_append_add (pre l : List Char) (k : Nat) (d : Char) :
    (pre ++ l).getD (pre.length + k) d = l.getD k d := by
  induction pre with
  | nil => simp
  | cons x xs ih =>
    rw [List.cons_append, List.length_cons,
      show xs.length + 1 + k = (xs.length + k) + 1 by omega,
      List.getD_cons_succ]
    exact ih

/-- One step of the leftward space scan. -/
theorem scanLeftNonSpace_succ (t : List Char) (k : Nat) :
    scanLeftNonSpace t (k + 1) =
      if t.getD k ' ' == ' ' then scanLeftNonSpace t k else some k := rfl

/-- The leftward space scan started just after a `c, space` boundary (`c`
not a space) stops at `c`'s index. -/
theorem scanLeftNonSpace_boundary (pre post : List Char) (c : Char)
    (hne : (c == ' ') = false) :
    scanLeftNonSpace (pre ++ c :: ' ' :: post) (pre.length + 2) =
      some pre.length := by
  have h1 : (pre ++ c :: ' ' :: post).getD (pre.length + 1) ' ' = ' ' := by
    rw [getD_append_add pre _ 1]
    rfl
  have h0 : (pre ++ c :: ' ' :: post).getD pre.length ' ' = c := by
    have h := getD_append_add pre (c :: ' ' :: post) 0 ' '
    simpa using h
  rw [show pre.length + 2 = (pre.length + 1) + 1 by omega,
    scanLeftNonSpace_succ, h1]
  simp only [beq_self_eq_true, if_true]
  rw [scanLeftNonSpace_succ, h0, hne]
  simp

/-- The rightward space skip across an append boundary. -/
theorem skipSpacesRight_append (pre l : List Char) :
    skipSpacesRight (pre ++ l) pre.length = pre.length + leadingSpaces l := by
  unfold skipSpacesRight
  rw [List.drop_left]

/-- Lemma: `leadingSpaces` of a list headed by a non-space character. -/
theorem leadingSpaces_cons_of_ne (c : Char) (l : List Char)
    (h : (c == ' ') = false) : leadingSpaces (c :: l) = 0 := by
  simp [leadingSpaces, h]

/-- Lemma: `leadingSpaces` of a list headed by a space. -/
theorem leadingSpaces_cons_space (l : List Char) :
    leadingSpaces (' ' :: l) = leadingSpaces l + 1 := by
  simp [leadingSpaces]

/-- A rendered name join starts with a non-space character (or is empty)
when no name starts with a space. -/
theorem leadingSpaces_joinComma : ∀ (names : List (List Char)),
    (∀ nm ∈ names, nm.head? ≠ some ' ') →
    leadingSpaces (joinComma names) = 0
  | [], _ => rfl
  | [n], h => by
    cases n with
    | nil => rfl
    | cons c l =>
      have hc : c ≠ ' ' := by
        intro hceq
        exact h (c :: l) (by simp) (by simp [hceq])
      simpa [joinComma] using leadingSpaces_cons_of_ne c l (by simpa using hc)
  | n :: f :: rest, h => by
    rw [joinComma_cons n (f :: rest) (by simp)]
    cases n with
    | nil =>
      simp only [List.nil_append]
      exact leadingSpaces_cons_of_ne ',' _ (by rfl)
    | cons c l =>
      have hc : c ≠ ' ' := by
        intro hceq
        exact h (c :: l) (by simp) (by simp [hceq])
      simpa using leadingSpaces_cons_of_ne c
        (l ++ chars ", " ++ joinComma (f :: rest)) (by simpa using hc)

/-- Lemma: `relPos` advances by the element length plus the separator width. -/
theorem relPos_succ_getD : ∀ (names : List (List Char)) (j : Nat),
    j < names.length →
    relPos names (j + 1) = relPos names j + (names.getD j []).length + 2
  | n :: rest, 0, _ => by
    rw [relPos_succ, relPos_zero, relPos_zero]
    simp [List.getD_cons_zero]
  | n :: rest, j + 1, h => by
    rw [relPos_succ, relPos_succ,
      relPos_succ_getD rest j (by simpa using h), List.getD_cons_succ]
    omega
  | [], j, h => absurd h (by simp)

/-- Splitting the rendered name join just before the separator preceding
name `j+1`. -/
theorem joinComma_split : ∀ (names : List (List Char)) (j : Nat),
    j + 1 < names.length →
    ∃ A B, joinComma names = A ++ ',' :: ' ' :: B
      ∧ A.length = relPos names j + (names.getD j []).length
  | n :: f :: rest, 0, _ => by
    refine ⟨n, joinComma (f :: rest), ?_, ?_⟩
    · rw [joinComma_cons n (f :: rest) (by simp)]
      simp [chars]
    · rw [relPos_zero]
      simp
  | n :: rest, j + 1, h => by
    have hlt : j + 1 < rest.length := by simpa using h
    obtain ⟨A, B, hAB, hlen⟩ := joinComma_split rest j hlt
    refine ⟨n ++ chars ", " ++ A, B, ?_, ?_⟩
    · rw [joinComma_cons n rest (by intro hnil; rw [hnil] at hlt; simp at hlt),
        hAB]
      simp [List.append_assoc]
    · rw [relPos_succ, List.getD_cons_succ]
      simp [List.length_append, hlen, sepLength]
      omega
  | [], j, h => absurd h (by simp)
  | [n], j, h => absurd h (by simp)

/-- Length of the rendered prefix before the imported-names list. -/
theorem importPfx_length (m : List Char) :
    (chars "from " ++ m ++ chars " import ").length = importBase m := by
  have h1 : (chars "from ").length = 5 := rfl
  have h2 : (chars " import ").length = 8 := rfl
  simp [List.length_append, h1, h2, importBase]
  omega

/-- Backward characterisation of `removeNameEdit` on the rendered import:
for every imported name except the first, the removed span runs from the
preceding comma's index (reached by scanning left over the space) to the
name's end — even when a following comma exists. -/
theorem removeNameEdit_backward (m : List Char) (names : List (List Char))
    (j : Nat) (h : j + 1 < names.length) :
    removeNameEdit (renderImport m names) (importNameSpan m names (j + 1)) =
      { startPos := importBase m + relPos names j + (names.getD j []).length,
        endPos := importBase m + relPos names (j + 1)
          + (names.getD (j + 1) []).length,
        insertedText := [] } := by
  obtain ⟨A, B, hAB, hlen⟩ := joinComma_split names j h
  have ht : renderImport m names =
      (chars "from " ++ m ++ chars " import " ++ A) ++ ',' :: ' ' :: B := by
    unfold renderImport
    rw [hAB]
    simp [List.append_assoc]
  have hplen : (chars "from " ++ m ++ chars " import " ++ A).length
      = importBase m + relPos names j + (names.getD j []).length := by
    rw [List.length_append, importPfx_length, hlen]
    omega
  have hstart : importBase m + relPos names (j + 1) =
      (chars "from " ++ m ++ chars " import " ++ A).length + 2 := by
    rw [hplen, relPos_succ_getD names j (by omega)]
    omega
  have hscan : scanLeftNonSpace (renderImport m names)
      (importBase m + relPos names (j + 1)) =
      some (chars "from " ++ m ++ chars " import " ++ A).length := by
    rw [hstart, ht]
    exact scanLeftNonSpace_boundary _ B ',' rfl
  have hgd : (renderImport m names).getD
      (chars "from " ++ m ++ chars " import " ++ A).length ' ' = ',' := by
    rw [ht]
    have h := getD_append_add (chars "from " ++ m ++ chars " import " ++ A)
      (',' :: ' ' :: B) 0 ' '
    simpa using h
  have hbc : backCommaScan (renderImport m names)
      (importBase m + relPos names (j + 1)) =
      some (chars "from " ++ m ++ chars " import " ++ A).length := by
    unfold backCommaScan
    rw [hscan]
    show (if (renderImport m names).getD
        (chars "from " ++ m ++ chars " import " ++ A).length ' ' == ','
      then some (chars "from " ++ m ++ chars " import " ++ A).length
      else none) = _
    rw [hgd]
    rfl
  unfold removeNameEdit importNameSpan
  simp only
  rw [hbc]
  show ({ startPos := (chars "from " ++ m ++ chars " import " ++ A).length,
          endPos := importBase m + relPos names (j + 1)
            + (names.getD (j + 1) []).length,
          insertedText := [] } : Edit) = _
  rw [hplen]

/-- Forward characterisation of `removeNameEdit` on the rendered import:
for the first imported name the leftward scan hits the `t` of `import`, so
the removed span runs forward through the following comma and space to the
start of the second name. -/
theorem removeNameEdit_forward (m : List Char) (n0 n1 : List Char)
    (rest : List (List Char))
    (hws : ∀ nm ∈ n0 :: n1 :: rest, nm.head? ≠ some ' ') :
    removeNameEdit (renderImport m (n0 :: n1 :: rest))
      (importNameSpan m (n0 :: n1 :: rest) 0) =
      { startPos := importBase m + relPos (n0 :: n1 :: rest) 0,
        endPos := importBase m + relPos (n0 :: n1 :: rest) 1,
        insertedText := [] } := by
  have hsp : chars " import " = chars " impor" ++ 't' :: ' ' :: [] := rfl
  have ht0 : renderImport m (n0 :: n1 :: rest) =
      (chars "from " ++ m ++ chars " impor")
        ++ 't' :: ' ' :: joinComma (n0 :: n1 :: rest) := by
    unfold renderImport
    rw [hsp]
    simp [List.append_assoc]
  have hpre2 : (chars "from " ++ m ++ chars " impor").length + 2
      = importBase m := by
    have h1 : (chars "from ").length = 5 := rfl
    have h2 : (chars " impor").length = 6 := rfl
    simp [List.length_append, h1, h2, importBase]
    all_goals omega
  have hscan : scanLeftNonSpace (renderImport m (n0 :: n1 :: rest))
      (importBase m) = some (chars "from " ++ m ++ chars " impor").length := by
    rw [← hpre2, ht0]
    exact scanLeftNonSpace_boundary _ _ 't' rfl
  have hgd : (renderImport m (n0 :: n1 :: rest)).getD
      (chars "from " ++ m ++ chars " impor").length ' ' = 't' := by
    rw [ht0]
    have h := getD_append_add (chars "from " ++ m ++ chars " impor")
      ('t' :: ' ' :: joinComma (n0 :: n1 :: rest)) 0 ' '
    simpa using h
  have hJ : joinComma (n0 :: n1 :: rest) =
      n0 ++ ',' :: ' ' :: joinComma (n1 :: rest) := by
    rw [joinComma_cons n0 (n1 :: rest) (by simp)]
    simp [chars]
  have ht1 : renderImport m (n0 :: n1 :: rest) =
      (chars "from " ++ m ++ chars " import " ++ n0)
        ++ ',' :: ' ' :: joinComma (n1 :: rest) := by
    unfold renderImport
    rw [hJ]
    simp [List.append_assoc]
  have hlen1 : (chars "from " ++ m ++ chars " import " ++ n0).length
      = importBase m + n0.length := by
    rw [List.length_append, importPfx_length]
  have hstop : importBase m + relPos (n0 :: n1 :: rest) 0
      + ((n0 :: n1 :: rest).getD 0 []).length = importBase m + n0.length := by
    rw [relPos_zero]
    simp
  have hskip1 : skipSpacesRight (renderImport m (n0 :: n1 :: rest))
      (importBase m + n0.length) = importBase m + n0.length := by
    rw [ht1, ← hlen1, skipSpacesRight_append]
    rw [leadingSpaces_cons_of_ne ',' _ rfl]
    simp
  have hlt : importBase m + n0.length <
      (renderImport m (n0 :: n1 :: rest)).length := by
    rw [ht1, List.length_append, hlen1]
    simp
  have hgd2 : (renderImport m (n0 :: n1 :: rest)).getD
      (importBase m + n0.length) ' ' = ',' := by
    have h := getD_append_add (chars "from " ++ m ++ chars " import " ++ n0)
      (',' :: ' ' :: joinComma (n1 :: rest)) 0 ' '
    rw [Nat.add_zero] at h
    rw [ht1, ← hlen1, h]
    rfl
  have ht2 : renderImport m (n0 :: n1 :: rest) =
      (chars "from " ++ m ++ chars " import " ++ n0 ++ [','])
        ++ ' ' :: joinComma (n1 :: rest) := by
    rw [ht1]
    simp
  have hlen2 : (chars "from " ++ m ++ chars " import " ++ n0 ++ [',']).length
      = importBase m + n0.length + 1 := by
    rw [List.length_append, hlen1]
    simp
  have hskip2 : skipSpacesRight (renderImport m (n0 :: n1 :: rest))
      (importBase m + n0.length + 1) = importBase m + n0.length + 2 := by
    rw [ht2, ← hlen2, skipSpacesRight_append, leadingSpaces_cons_space,
      leadingSpaces_joinComma (n1 :: rest)
        (fun nm hnm => hws nm (by simp [hnm]))]
    rw [hlen2]
  have hbc : backCommaScan (renderImport m (n0 :: n1 :: rest))
      (importBase m + relPos (n0 :: n1 :: rest) 0) = none := by
    unfold backCommaScan
    rw [relPos_zero, Nat.add_zero, hscan]
    show (if (renderImport m (n0 :: n1 :: rest)).getD
        (chars "from " ++ m ++ chars " impor").length ' ' == ','
      then some (chars "from " ++ m ++ chars " impor").length
      else none) = _
    rw [hgd]
    rfl
  have hcond : (decide (skipSpacesRight (renderImport m (n0 :: n1 :: rest))
        (importBase m + n0.length) < (renderImport m (n0 :: n1 :: rest)).length)
      && ((renderImport m (n0 :: n1 :: rest)).getD
            (skipSpacesRight (renderImport m (n0 :: n1 :: rest))
              (importBase m + n0.length)) ' ' == ',')) = true := by
    rw [hskip1, hgd2]
    simp [hlt]
  have hfc : forwardCommaScan (renderImport m (n0 :: n1 :: rest))
      (importBase m + relPos (n0 :: n1 :: rest) 0)
      (importBase m + relPos (n0 :: n1 :: rest) 0
        + ((n0 :: n1 :: rest).getD 0 []).length) =
      { startPos := importBase m + relPos (n0 :: n1 :: rest) 0,
        endPos := importBase m + relPos (n0 :: n1 :: rest) 1,
        insertedText := [] } := by
    unfold forwardCommaScan
    rw [hstop]
    rw [if_pos hcond, hskip1, hskip2]
    have hrel1 : relPos (n0 :: n1 :: rest) 1 = n0.length + 2 := by
      rw [relPos_succ, relPos_zero]
    rw [hrel1]
    simp [Edit.mk.injEq]
    all_goals omega
  unfold removeNameEdit importNameSpan
  simp only
  rw [hbc]
  show forwardCommaScan _ _ _ = _
  exact hfc

/-- Committing the planned import-name removal on the rendered import yields
the rendering of the import without that name, in every position. -/
theorem commit_removeNameEdit (m : List Char) (names : List (List Char))
    (j : Nat) (h2 : 2 ≤ names.length) (hj : j < names.length)
    (hws : ∀ nm ∈ names, nm.head? ≠ some ' ') :
    commitEdits (renderImport m names)
      [removeNameEdit (renderImport m names) (importNameSpan m names j)] =
      renderImport m (names.eraseIdx j) := by
  cases j with
  | zero =>
    match names, h2 with
    | n0 :: n1 :: rest, _ =>
      rw [removeNameEdit_forward m n0 n1 rest hws, commitEdits_single]
      have hdel := delete_forward (n0 :: n1 :: rest) 0
        (chars "from " ++ m ++ chars " import ") []
        (importBase m + relPos (n0 :: n1 :: rest) 0)
        (importBase m + relPos (n0 :: n1 :: rest) 1)
        (by simp) (by rw [importPfx_length]) (by rw [importPfx_length])
      simp only [List.append_nil] at hdel
      simpa [renderImport] using hdel
  | succ j' =>
    rw [removeNameEdit_backward m names j' (by omega), commitEdits_single]
    have hdel := delete_backward names j'
      (chars "from " ++ m ++ chars " import ") []
      (importBase m + relPos names j' + (names.getD j' []).length)
      (importBase m + relPos names (j' + 1) + (names.getD (j' + 1) []).length)
      (by omega) (by rw [importPfx_length]) (by rw [importPfx_length])
    simp only [List.append_nil] at hdel
    simpa [renderImport] using hdel

/-- C3 (amended): separator cleanup for removing one element of a rendered
`", "`-separated list of at least two elements.  The argument-list remover
(`removeArgumentWithComma`) removes a non-last element together with its
following comma and the whitespace up to the next element, and the last
element together with its preceding comma; the import-name remover
(`removeNameEdit`) instead prefers the preceding comma — every name but the
first is removed backwards through the preceding comma even when a following
comma exists, and only the first name is removed forwards through its
following comma and whitespace.  In all positions both removals commit to
exactly the rendered list without that element — a syntactically valid list
with one fewer element and (for comma-free elements) exactly one fewer
comma, no leading or dangling separator. -/
theorem c3_separator_cleanup :
    (∀ es i, i + 1 < es.length →
       removeArgumentWithComma (argNodeAt 1 es i) (argListNodeOf es) =
         { startPos := 1 + relPos es i, endPos := 1 + relPos es (i + 1),
           insertedText := [] }) ∧
    (∀ es j, j + 2 = es.length →
       removeArgumentWithComma (argNodeAt 1 es (j + 1)) (argListNodeOf es) =
         { startPos := 1 + relPos es j + (es.getD j []).length,
           endPos := 1 + relPos es (j + 1) + (es.getD (j + 1) []).length,
           insertedText := [] }) ∧
    (∀ es i, 2 ≤ es.length → i < es.length →
       commitEdits (renderArgs es)
         [removeArgumentWithComma (argNodeAt 1 es i) (argListNodeOf es)] =
         renderArgs (es.eraseIdx i)) ∧
    (∀ es i, 2 ≤ es.length → i < es.length → (∀ e ∈ es, (',' : Char) ∉ e) →
       (renderArgs es).count ',' = (renderArgs (es.eraseIdx i)).count ',' + 1) ∧
    (∀ m names j, j + 1 < names.length →
       removeNameEdit (renderImport m names) (importNameSpan m names (j + 1)) =
         { startPos := importBase m + relPos names j + (names.getD j []).length,
           endPos := importBase m + relPos names (j + 1)
             + (names.getD (j + 1) []).length,
           insertedText := [] }) ∧
    (∀ m n0 n1 rest, (∀ nm ∈ n0 :: n1 :: rest, nm.head? ≠ some ' ') →
       removeNameEdit (renderImport m (n0 :: n1 :: rest))
         (importNameSpan m (n0 :: n1 :: rest) 0) =
         { startPos := importBase m + relPos (n0 :: n1 :: rest) 0,
           endPos := importBase m + relPos (n0 :: n1 :: rest) 1,
           insertedText := [] }) ∧
    (∀ m names j, 2 ≤ names.length → j < names.length →
       (∀ nm ∈ names, nm.head? ≠ some ' ') →
       commitEdits (renderImport m names)
         [removeNameEdit (renderImport m names) (importNameSpan m names j)] =
         renderImport m (names.eraseIdx j)) :=
  ⟨removeArgumentWithComma_forward, removeArgumentWithComma_backward,
   commit_removeArgumentWithComma, count_renderArgs_erase,
   removeNameEdit_backward, removeNameEdit_forward, commit_removeNameEdit⟩

/-- C3 witness: concrete removals — dropping `a` and dropping `c` from
`(a, b, c)`, and dropping `ToolNode` (middle) and `a` (first) from
`from m import a, ToolNode, b`. -/
theorem c3_separator_cleanup_witness :
    commitEdits (chars "(a, b, c)")
      [removeArgumentWithComma (argNodeAt 1 [chars "a", chars "b", chars "c"] 0)
        (argListNodeOf [chars "a", chars "b", chars "c"])] = chars "(b, c)" ∧
    commitEdits (chars "(a, b, c)")
      [removeArgumentWithComma (argNodeAt 1 [chars "a", chars "b", chars "c"] 2)
        (argListNodeOf [chars "a", chars "b", chars "c"])] = chars "(a, b)" ∧
    commitEdits (chars "from m import a, ToolNode, b")
      [removeNameEdit (chars "from m import a, ToolNode, b")
        (importNameSpan (chars "m") [chars "a", chars "ToolNode", chars "b"] 1)] =
      chars "from m import a, b" ∧
    commitEdits (chars "from m import a, ToolNode, b")
      [removeNameEdit (chars "from m import a, ToolNode, b")
        (importNameSpan (chars "m") [chars "a", chars "ToolNode", chars "b"] 0)] =
      chars "from m import ToolNode, b" := by
  refine ⟨?_, ?_, ?_, ?_⟩
  · exact c3_separator_cleanup.2.2.1 [chars "a", chars "b", chars "c"] 0
      (by decide) (by decide)
  · exact c3_separator_cleanup.2.2.1 [chars "a", chars "b", chars "c"] 2
      (by decide) (by decide)
  · exact c3_separator_cleanup.2.2.2.2.2.2 (chars "m")
      [chars "a", chars "ToolNode", chars "b"] 1 (by decide) (by decide)
      (by decide)
  · exact c3_separator_cleanup.2.2.2.2.2.2 (chars "m")
      [chars "a", chars "ToolNode", chars "b"] 0 (by decide) (by decide)
      (by decide)

end Codemod
